import Mathlib

/-!
Verification of the address-index core of this repository
(src/index/addrindex.cpp, src/index/addrindex.h).

The development shallowly embeds the C++ source: byte strings are lists of
naturals below 256, 32-bit arithmetic is natural-number arithmetic reduced
modulo 2 ^ 32, the LevelDB store is a list of key/value pairs kept sorted by
the lexicographic order of the serialized keys, and the iterator loops of the
source are modelled with explicit fuel so that a loop that never advances its
iterator is visible as a computation that exhausts every fuel bound.
-/

set_option maxRecDepth 8000

/-- A script (CScript) as its raw byte sequence. -/
abbrev Script : Type := List Nat

/-- COutPoint: a transaction hash (uint256, here a natural) and an output
index (uint32). -/
structure COutPoint where
  hash : Nat
  n : Nat
deriving DecidableEq

/-- CDiskTxPos: block file id, byte offset of the block inside the file, and
byte offset of the transaction after the block header. -/
structure CDiskTxPos where
  nFile : Nat
  nPos : Nat
  nTxOffset : Nat
deriving DecidableEq

/-- DBKeyType from src/index/addrindex.cpp: the kind byte stored inside a
database key (SEED = 0, SPENT = 1, CREATED = 2, following the enum order). -/
inductive DBKeyType where
  | SEED
  | SPENT
  | CREATED
deriving DecidableEq

/-- The single byte a DBKeyType serializes to (uint8_t cast of the enum). -/
def DBKeyType.toByte : DBKeyType → Nat
  | .SEED => 0
  | .SPENT => 1
  | .CREATED => 2

/-- DBKey from src/index/addrindex.cpp: AddrId, kind, outpoint. -/
structure DBKey where
  m_addr_id : Nat
  m_key_type : DBKeyType
  m_outpoint : COutPoint
deriving DecidableEq

/-- DBValue from src/index/addrindex.cpp: the transaction position paired
with a copy of the script, kept to re-check against hash collisions. -/
abbrev DBValue : Type := CDiskTxPos × Script

/-- CTxOut restricted to the field the index reads. -/
structure CTxOut where
  scriptPubKey : Script
deriving DecidableEq

/-- CTxIn restricted to the field the index reads. -/
structure CTxIn where
  prevout : COutPoint
deriving DecidableEq

/-- CTransaction restricted to the fields the index reads.  `txid` stands for
the value of GetHash(), which is computed outside the indexed code. -/
structure CTransaction where
  txid : Nat
  vin : List CTxIn
  vout : List CTxOut
deriving DecidableEq

/-- CBlock restricted to its transaction list. -/
structure CBlock where
  vtx : List CTransaction
deriving DecidableEq

/-- Coin restricted to the output carried in undo data. -/
structure Coin where
  out : CTxOut
deriving DecidableEq

/-- CTxUndo: one spent coin per input of a non-coinbase transaction. -/
structure CTxUndo where
  vprevout : List Coin
deriving DecidableEq

/-- CBlockUndo: one CTxUndo per non-coinbase transaction of the block. -/
structure CBlockUndo where
  vtxundo : List CTxUndo
deriving DecidableEq

/-- 32-bit left rotation on naturals below 2 ^ 32. -/
def rotl32 (x r : Nat) : Nat :=
  ((x <<< r) % 2 ^ 32) ||| (x >>> (32 - r))

/-- Modelled from the spec: the body loop of MurmurHash3 (the fingerprint
named by §4.B of the spec and by the SEED comment in addrindex.cpp; its
implementation lives in hash.cpp, outside src/).  Mixes every full 4-byte
little-endian block into the state and returns the state with the remaining
tail of fewer than 4 bytes. -/
def murmurBlocks : Nat → List Nat → Nat × List Nat
  | h1, b0 :: b1 :: b2 :: b3 :: rest =>
      let k1 := b0 + b1 * 256 + b2 * 65536 + b3 * 16777216
      let k1 := (k1 * 0xcc9e2d51) % 2 ^ 32
      let k1 := rotl32 k1 15
      let k1 := (k1 * 0x1b873593) % 2 ^ 32
      let h1 := h1 ^^^ k1
      let h1 := rotl32 h1 13
      let h1 := (h1 * 5 + 0xe6546b64) % 2 ^ 32
      murmurBlocks h1 rest
  | h1, tail => (h1, tail)

/-- Modelled from the spec: the tail accumulator of MurmurHash3 (the
fall-through switch on the final 1 to 3 bytes). -/
def murmurTailK1 : List Nat → Nat
  | [] => 0
  | [t0] => t0
  | [t0, t1] => (t1 <<< 8) ^^^ t0
  | t0 :: t1 :: t2 :: _ => ((t2 <<< 16) ^^^ (t1 <<< 8)) ^^^ t0

/-- Modelled from the spec: MurmurHash3(nHashSeed, vDataToHash), the 32-bit
seeded fingerprint used by GetAddrId (§4.B of the spec; implementation in
hash.cpp, outside src/). -/
def MurmurHash3 (nHashSeed : Nat) (vDataToHash : List Nat) : Nat :=
  let p := murmurBlocks (nHashSeed % 2 ^ 32) vDataToHash
  let h1 := p.1
  let h1 :=
    match p.2 with
    | [] => h1
    | tail =>
        let k1 := murmurTailK1 tail
        let k1 := (k1 * 0xcc9e2d51) % 2 ^ 32
        let k1 := rotl32 k1 15
        let k1 := (k1 * 0x1b873593) % 2 ^ 32
        h1 ^^^ k1
  let h1 := h1 ^^^ (vDataToHash.length % 2 ^ 32)
  let h1 := h1 ^^^ (h1 >>> 16)
  let h1 := (h1 * 0x85ebca6b) % 2 ^ 32
  let h1 := h1 ^^^ (h1 >>> 13)
  let h1 := (h1 * 0xc2b2ae35) % 2 ^ 32
  h1 ^^^ (h1 >>> 16)

/-- AddrIndex::GetAddrId from src/index/addrindex.cpp: the MurmurHash3
fingerprint of the script bytes under the per-database seed. -/
def GetAddrId (m_hash_seed : Nat) (script : Script) : Nat :=
  MurmurHash3 m_hash_seed script

-- Sanity: the reference test vector of MurmurHash3 (x86, 32-bit) and the
-- concrete fingerprint collision used further below.
example : MurmurHash3 0 [104, 101, 108, 108, 111] = 0x248bfa47 := by decide

example : GetAddrId 0 [1, 2, 3] = GetAddrId 0 [4, 251, 226, 44] := by decide

/-- Little-endian byte serialization of a natural into `w` bytes (the
serializer writes fixed-width unsigned integers least significant byte
first). -/
def leBytes : Nat → Nat → List Nat
  | 0, _ => []
  | w + 1, n => n % 256 :: leBytes w (n / 256)

/-- Serialization of a COutPoint: the 32 bytes of the transaction hash
followed by the 4 little-endian bytes of the index. -/
def serOutPoint (o : COutPoint) : List Nat :=
  leBytes 32 o.hash ++ leBytes 4 o.n

/-- DBKeyPrefix serialization from src/index/addrindex.cpp: the table byte
DB_ADDR_INDEX (ASCII 'a' = 97) followed by the 32-bit AddrId. -/
def serDBKeyPrefix (m_addr_id : Nat) : List Nat :=
  97 :: leBytes 4 m_addr_id

/-- DBKey serialization from src/index/addrindex.cpp: the DBKeyPrefix bytes,
then the kind byte, then the outpoint. -/
def serDBKey (k : DBKey) : List Nat :=
  serDBKeyPrefix k.m_addr_id ++ (k.m_key_type.toByte :: serOutPoint k.m_outpoint)

/-- Strict lexicographic order on byte strings, the comparator LevelDB uses
on serialized keys (a proper leading part of a string sorts before it). -/
def lexLt : List Nat → List Nat → Bool
  | _, [] => false
  | [], _ :: _ => true
  | a :: as, b :: bs => if a < b then true else if b < a then false else lexLt as bs

/-- The database of index entries: key/value pairs kept sorted by the
lexicographic order of serialized keys, as LevelDB stores them. -/
abbrev Db : Type := List (DBKey × DBValue)

/-- One batched write: place the entry at its key position, overwriting an
entry whose serialized key is identical. -/
def dbInsert (db : Db) (e : DBKey × DBValue) : Db :=
  match db with
  | [] => [e]
  | f :: rest =>
      if serDBKey e.1 = serDBKey f.1 then e :: rest
      else if lexLt (serDBKey e.1) (serDBKey f.1) then e :: f :: rest
      else f :: dbInsert rest e

/-- AddrIndex::DB::WriteToIndex from src/index/addrindex.cpp: all entries of
one block committed through a single CDBBatch. -/
def WriteToIndex (db : Db) (entries : List (DBKey × DBValue)) : Db :=
  entries.foldl dbInsert db

/-- CDBIterator::Seek: the tail of the store starting at the first entry
whose serialized key is not below the target bytes. -/
def dbSeek (db : Db) (target : List Nat) : Db :=
  List.dropWhile (fun e => lexLt (serDBKey e.1) target) db

/-- Point lookup by serialized key (the first entry stored under it). -/
def dbGet (db : Db) (k : DBKey) : Option DBValue :=
  (List.find? (fun e => serDBKey e.1 = serDBKey k) db).map (fun e => e.2)

/-- How many entries the store holds under a serialized key. -/
def dbCount (db : Db) (k : DBKey) : Nat :=
  List.countP (fun e => serDBKey e.1 = serDBKey k) db

/-- The sortedness invariant of the store: adjacent serialized keys strictly
increase. -/
def DbSorted (db : Db) : Prop :=
  List.Chain' (fun e f => lexLt (serDBKey e.1) (serDBKey f.1) = true) db

/-- The while loop of AddrIndex::DB::ReadAddrIndex (src/index/addrindex.cpp,
lines 114 to 124), one fuel unit per executed iteration.  `it` is the
iterator position.  The loop breaks when the iterator is exhausted or the
decoded AddrId differs; on a stored script different from the queried one it
executes `continue` WITHOUT advancing the iterator, exactly as the source
does; only a matched entry is appended and stepped past.  `none` means the
fuel ran out, i.e. the loop is still running after that many iterations. -/
def readLoop (addr_id : Nat) (script : Script) :
    Nat → Db → List (DBKey × DBValue) → Option (List (DBKey × DBValue))
  | 0, _, _ => none
  | _ + 1, [], acc => some acc
  | fuel + 1, (key, value) :: rest, acc =>
      if key.m_addr_id ≠ addr_id then some acc
      else if value.2 ≠ script then readLoop addr_id script fuel ((key, value) :: rest) acc
      else readLoop addr_id script fuel rest (acc ++ [(key, value)])

/-- AddrIndex::DB::ReadAddrIndex from src/index/addrindex.cpp: seek to the
serialized DBKeyPrefix of the AddrId and run the scan loop. -/
def ReadAddrIndex (fuel : Nat) (db : Db) (addr_id : Nat) (script : Script) :
    Option (List (DBKey × DBValue)) :=
  readLoop addr_id script fuel (dbSeek db (serDBKeyPrefix addr_id)) []

/-- One lookup result element: the outpoint, the transaction read back from
the block file, and the header bytes of its block (standing for the block
hash, which is a function of those bytes). -/
abbrev LookupRes : Type := COutPoint × CTransaction × List Nat

/-- The per-entry disk access of AddrIndex::FindTxsByScript: open the block
file at the entry position (none models OpenBlockFile returning a null
file), read the 80-byte block header, seek forward by nTxOffset from there
(fseek on an open file succeeds even past the end, so the seek itself never
fails) and deserialize one transaction.  `deserTx` is the transaction
deserializer of the primitives layer, which is outside src/ and is a
parameter of the model; `blockFiles` maps a file id and a byte position to
the stream OpenBlockFile would return. -/
def readTxFromDisk (deserTx : List Nat → Option (CTransaction × List Nat))
    (blockFiles : Nat → Nat → Option (List Nat)) (pos : CDiskTxPos) :
    Option (CTransaction × List Nat) :=
  match blockFiles pos.nFile pos.nPos with
  | none => none
  | some stream =>
      if stream.length < 80 then none
      else
        match deserTx (List.drop pos.nTxOffset (List.drop 80 stream)) with
        | none => none
        | some (tx, _) => some (tx, List.take 80 stream)

/-- The result loop of AddrIndex::FindTxsByScript (src/index/addrindex.cpp,
lines 221 to 254).  Any disk or deserialization failure returns false at
once, LEAVING the elements pushed so far in the result vectors, exactly as
the C++ out-parameters keep them; an entry of SEED kind hits the default
branch and also returns false. -/
def findTxsLoop (deserTx : List Nat → Option (CTransaction × List Nat))
    (blockFiles : Nat → Nat → Option (List Nat)) :
    List (DBKey × DBValue) → List LookupRes → List LookupRes →
    Bool × List LookupRes × List LookupRes
  | [], spends, creations => (true, spends, creations)
  | (key, value) :: rest, spends, creations =>
      match readTxFromDisk deserTx blockFiles value.1 with
      | none => (false, spends, creations)
      | some (tx, hdr) =>
          match key.m_key_type with
          | .SPENT =>
              findTxsLoop deserTx blockFiles rest (spends ++ [(key.m_outpoint, tx, hdr)]) creations
          | .CREATED =>
              findTxsLoop deserTx blockFiles rest spends (creations ++ [(key.m_outpoint, tx, hdr)])
          | .SEED => (false, spends, creations)

/-- AddrIndex::FindTxsByScript from src/index/addrindex.cpp: read the stored
entries for GetAddrId(script), return false immediately when there are none,
otherwise materialize every entry from the block files.  The outer `none`
propagates a ReadAddrIndex scan that is still running after `fuel`
iterations; a terminated call returns the C++ boolean and the contents of
the two result vectors (which start empty). -/
def FindTxsByScript (deserTx : List Nat → Option (CTransaction × List Nat))
    (blockFiles : Nat → Nat → Option (List Nat)) (fuel : Nat)
    (m_hash_seed : Nat) (db : Db) (script : Script) :
    Option (Bool × List LookupRes × List LookupRes) :=
  match ReadAddrIndex fuel db (GetAddrId m_hash_seed script) script with
  | none => none
  | some db_entries =>
      if db_entries.length = 0 then some (false, [], [])
      else some (findTxsLoop deserTx blockFiles db_entries [] [])

/-- Modelled from the spec: GetSizeOfCompactSize (serialize.h, outside src/),
the byte length of the compact-size encoding of a count, named by §4.C step 1
of the spec as the gap between the block header and the first transaction. -/
def GetSizeOfCompactSize (nSize : Nat) : Nat :=
  if nSize < 253 then 1
  else if nSize ≤ 0xFFFF then 3
  else if nSize ≤ 0xFFFFFFFF then 5
  else 9

/-- Modelled from the spec: the compact-size encoding itself (serialize.h,
outside src/), used here to lay out the serialized block when the lookup
re-reads transactions from disk. -/
def compactSizeBytes (n : Nat) : List Nat :=
  if n < 253 then [n]
  else if n ≤ 0xFFFF then 253 :: leBytes 2 n
  else if n ≤ 0xFFFFFFFF then 254 :: leBytes 4 n
  else 255 :: leBytes 8 n

/-- The CREATED entries one transaction contributes in AddrIndex::WriteBlock
(src/index/addrindex.cpp, lines 180 to 184): one per output, keyed by the
fingerprint of its scriptPubKey and the outpoint (txid, j), valued by the
transaction position and the script. -/
def txCreatedEntries (seed : Nat) (tx : CTransaction) (pos : CDiskTxPos) :
    List (DBKey × DBValue) :=
  (List.enum tx.vout).map (fun jo =>
    (⟨GetAddrId seed jo.2.scriptPubKey, .CREATED, ⟨tx.txid, jo.1⟩⟩,
     (pos, jo.2.scriptPubKey)))

/-- The SPENT entries of one non-coinbase transaction, input k paired with
undo element k, as the loop of src/index/addrindex.cpp lines 189 to 193
reads them. -/
def txSpentEntriesList (seed : Nat) (tx : CTransaction) (tx_undo : CTxUndo)
    (pos : CDiskTxPos) : List (DBKey × DBValue) :=
  (List.zip tx.vin tx_undo.vprevout).map (fun p =>
    (⟨GetAddrId seed p.2.out.scriptPubKey, .SPENT, p.1.prevout⟩,
     (pos, p.2.out.scriptPubKey)))

/-- The SPENT entries one non-coinbase transaction contributes in
AddrIndex::WriteBlock (src/index/addrindex.cpp, lines 188 to 193): one per
input, keyed by the fingerprint of the prior output script recovered from
undo data and by the spent prevout.  `none` models the out-of-bounds vector
access the C++ would make when the undo record has fewer vprevout elements
than the transaction has inputs. -/
def txSpentEntries (seed : Nat) (tx : CTransaction) (tx_undo : CTxUndo)
    (pos : CDiskTxPos) : Option (List (DBKey × DBValue)) :=
  if tx.vin.length ≤ tx_undo.vprevout.length then
    some (txSpentEntriesList seed tx tx_undo pos)
  else none

/-- The entry-building loop of AddrIndex::WriteBlock over the enumerated
transactions of the block, carrying the running nTxOffset, which starts at
the compact-size length of the transaction count and advances by the
serialized size of each transaction.  `none` models an out-of-bounds
access into the undo data. -/
def blockEntriesGo (serTx : CTransaction → List Nat) (seed : Nat)
    (not_genesis_block : Bool) (undo : CBlockUndo) (blockFile blockPos : Nat) :
    List (Nat × CTransaction) → Nat → Option (List (DBKey × DBValue))
  | [], _ => some []
  | (i, tx) :: rest, off =>
      let pos : CDiskTxPos := ⟨blockFile, blockPos, off⟩
      let spentOpt : Option (List (DBKey × DBValue)) :=
        if not_genesis_block ∧ 0 < i then
          match undo.vtxundo.get? (i - 1) with
          | none => none
          | some tx_undo => txSpentEntries seed tx tx_undo pos
        else some []
      match spentOpt with
      | none => none
      | some spent =>
          match blockEntriesGo serTx seed not_genesis_block undo blockFile blockPos
              rest (off + (serTx tx).length) with
          | none => none
          | some more => some (txCreatedEntries seed tx pos ++ spent ++ more)

/-- The full list of index entries AddrIndex::WriteBlock emits for a block
at disk position (blockFile, blockPos) and height nHeight. -/
def blockEntries (serTx : CTransaction → List Nat) (seed : Nat) (block : CBlock)
    (undo : CBlockUndo) (blockFile blockPos nHeight : Nat) :
    Option (List (DBKey × DBValue)) :=
  blockEntriesGo serTx seed (decide (0 < nHeight)) undo blockFile blockPos
    (List.enum block.vtx) (GetSizeOfCompactSize block.vtx.length)

/-- The entry list blockEntriesGo computes when every undo access is in
bounds (for `g = false`, the genesis case, the undo data is never read, so
this is unconditional): the same traversal with the guards erased. -/
def blockEntriesListGo (serTx : CTransaction → List Nat) (seed : Nat) (g : Bool)
    (undo : CBlockUndo) (blockFile blockPos : Nat) :
    List (Nat × CTransaction) → Nat → List (DBKey × DBValue)
  | [], _ => []
  | (i, tx) :: rest, off =>
      let pos : CDiskTxPos := ⟨blockFile, blockPos, off⟩
      txCreatedEntries seed tx pos ++
      (if g ∧ 0 < i then
         match undo.vtxundo.get? (i - 1) with
         | none => []
         | some tu => txSpentEntriesList seed tx tu pos
       else []) ++
      blockEntriesListGo serTx seed g undo blockFile blockPos rest
        (off + (serTx tx).length)

/-- The entry list of a whole block in the in-bounds case. -/
def blockEntriesList (serTx : CTransaction → List Nat) (seed : Nat) (block : CBlock)
    (undo : CBlockUndo) (blockFile blockPos nHeight : Nat) : List (DBKey × DBValue) :=
  blockEntriesListGo serTx seed (decide (0 < nHeight)) undo blockFile blockPos
    (List.enum block.vtx) (GetSizeOfCompactSize block.vtx.length)

/-- AddrIndex::WriteBlock from src/index/addrindex.cpp: when the block is not
the genesis block and the undo read fails (`undoRead = none`), return false
with the database untouched; otherwise build the entries of the block and
commit them through WriteToIndex as one batch.  The outer `none` models an
out-of-bounds access into malformed undo data (undefined behaviour in the
C++, so not assigned a result). -/
def WriteBlock (serTx : CTransaction → List Nat) (seed : Nat) (db : Db)
    (block : CBlock) (undoRead : Option CBlockUndo)
    (blockFile blockPos nHeight : Nat) : Option (Bool × Db) :=
  let not_genesis_block := 0 < nHeight
  if not_genesis_block ∧ undoRead = none then some (false, db)
  else
    match blockEntries serTx seed block (undoRead.getD ⟨[]⟩) blockFile blockPos nHeight with
    | none => none
    | some entries => some (true, WriteToIndex db entries)

/-- The state AddrIndex::DB::SetupHashSeed works on: the singleton seed
record stored under the 2-byte key ('a', SEED) plus the entry table.  The
seed record's serialized key is 2 bytes, so it collides with no 42-byte
entry key and sorts before every entry prefix; the model therefore keeps it
as a separate field of the same store. -/
structure IndexStore where
  seedRecord : Option Nat
  entries : Db
deriving DecidableEq

/-- AddrIndex::DB::SetupHashSeed from src/index/addrindex.cpp: if the seed
record exists it is read and returned; otherwise `freshSeed` — the value
GetRandInt would draw — is written under the seed key and returned. -/
def SetupHashSeed (store : IndexStore) (freshSeed : Nat) : Nat × IndexStore :=
  match store.seedRecord with
  | some seed => (seed, store)
  | none => (freshSeed, { store with seedRecord := some freshSeed })

/-- AddrIndex::Init from src/index/addrindex.cpp: the in-memory hash seed is
whatever SetupHashSeed established, before any indexing proceeds. -/
def IndexInit (store : IndexStore) (freshSeed : Nat) : Nat × IndexStore :=
  SetupHashSeed store freshSeed

/-- Modelled from the spec: §4.C disconnect_block step 1 — the candidate
AddrIds a block touches: the fingerprint of every output script, and of
every prior-output script of a non-coinbase input as the CoinsView
collaborator recovers it, deduplicated.  (The disconnect path is declared
for the index but not implemented under src/.) -/
def blockCandidateAddrIds (coinsView : COutPoint → Option Script) (seed : Nat)
    (block : CBlock) : List Nat :=
  ((block.vtx.map (fun tx => tx.vout.map (fun o => GetAddrId seed o.scriptPubKey))).flatten ++
   ((List.enum block.vtx).map (fun itx =>
      if 0 < itx.1 then
        itx.2.vin.filterMap (fun txin => (coinsView txin.prevout).map (GetAddrId seed))
      else [])).flatten).dedup

/-- Modelled from the spec: §4.C disconnect_block steps 2 and 3 — scan the
prefix of every candidate AddrId, collect the keys whose value carries a
position inside the disconnecting block, and delete them in one batch.
Filtering the store by that condition is the batch deletion's result. -/
def DisconnectBlock (coinsView : COutPoint → Option Script) (seed : Nat)
    (db : Db) (block : CBlock) (blockFile blockPos : Nat) : Db :=
  let cands := blockCandidateAddrIds coinsView seed block
  db.filter (fun e =>
    !(cands.contains e.1.m_addr_id && (e.2.1.nFile == blockFile) &&
      (e.2.1.nPos == blockPos)))

/-- A concrete coinbase transaction (null prevout, one output) used by the
witnesses below. -/
def cbTx : CTransaction := ⟨1, [⟨⟨0, 4294967295⟩⟩], [⟨[1]⟩]⟩

/-- A concrete transaction spending the coinbase output into script [2]. -/
def spendTx : CTransaction := ⟨2, [⟨⟨1, 0⟩⟩], [⟨[2]⟩]⟩

/-- A concrete two-transaction block for the witnesses. -/
def testBlock : CBlock := ⟨[cbTx, spendTx]⟩

/-- The undo record mirroring testBlock: one element for spendTx, holding
the coin spendTx consumes (script [1]). -/
def testUndo : CBlockUndo := ⟨[⟨[⟨⟨[1]⟩⟩]⟩]⟩

/-- A fixed one-byte serialization stand-in for witnesses that do not read
transactions back. -/
def serTxOne : CTransaction → List Nat := fun _ => [0]

/-- A concrete deserializer for the witnesses: one byte is a transaction
with that byte as its hash and no inputs or outputs. -/
def testDeser : List Nat → Option (CTransaction × List Nat) := fun bs =>
  match bs with
  | b :: rest => some (⟨b, [], []⟩, rest)
  | [] => none

/-- Concrete block files for the witnesses: file 0 holds one block of 80
zero header bytes followed by the byte 9; no other file opens. -/
def testFiles : Nat → Nat → Option (List Nat) := fun f _ =>
  if f = 0 then some (List.replicate 80 0 ++ [9]) else none

/-- A concrete store with two entries under the AddrId of script [3], both
storing script [3]: the first at a position testFiles can serve, the second
at a position whose file open fails. -/
def testDb : Db :=
  [(⟨GetAddrId 0 [3], DBKeyType.CREATED, ⟨1, 0⟩⟩, (⟨0, 0, 0⟩, [3])),
   (⟨GetAddrId 0 [3], DBKeyType.CREATED, ⟨2, 0⟩⟩, (⟨1, 0, 0⟩, [3]))]

/-! ### Lexicographic-order lemmas for serialized keys -/

lemma lexLt_append_left_self (p u : List Nat) : lexLt (p ++ u) p = false := by
  induction p with
  | nil => cases u <;> rfl
  | cons a p ih => simp [lexLt, ih]

lemma lexLt_append_right (p u v : List Nat) : lexLt (p ++ u) (p ++ v) = lexLt u v := by
  induction p with
  | nil => rfl
  | cons a p ih => simp [lexLt, ih]

lemma lexLt_append_of_ne (s t u v : List Nat) (hlen : s.length = t.length)
    (hne : s ≠ t) : lexLt (s ++ u) (t ++ v) = lexLt s t := by
  induction s generalizing t with
  | nil =>
      cases t with
      | nil => exact absurd rfl hne
      | cons b t => simp at hlen
  | cons a s ih =>
      cases t with
      | nil => simp at hlen
      | cons b t =>
          by_cases hab : a < b
          · simp [lexLt, hab]
          · by_cases hba : b < a
            · simp [lexLt, hab, hba]
            · have hb : a = b := Nat.le_antisymm (Nat.not_lt.mp hba) (Nat.not_lt.mp hab)
              subst hb
              have hst : s ≠ t := by
                intro h
                exact hne (by rw [h])
              have hl : s.length = t.length := by simpa using hlen
              simp [lexLt, ih t hl hst]

lemma lexLt_irrefl (s : List Nat) : lexLt s s = false := by
  induction s with
  | nil => rfl
  | cons a s ih => simp [lexLt, ih]

lemma eq_of_not_lexLt (s t : List Nat) (hlen : s.length = t.length)
    (h1 : lexLt s t = false) (h2 : lexLt t s = false) : s = t := by
  induction s generalizing t with
  | nil =>
      cases t with
      | nil => rfl
      | cons b t => simp at hlen
  | cons a s ih =>
      cases t with
      | nil => simp at hlen
      | cons b t =>
          by_cases hab : a < b
          · simp [lexLt, hab] at h1
          · by_cases hba : b < a
            · simp [lexLt, hba, Nat.lt_asymm hba] at h2
            · have hb : a = b := Nat.le_antisymm (Nat.not_lt.mp hba) (Nat.not_lt.mp hab)
              subst hb
              simp only [lexLt, if_neg (lt_irrefl a)] at h1 h2
              have hl : s.length = t.length := by simpa using hlen
              rw [ih t hl h1 h2]

lemma lexLt_trans {a b c : List Nat} (h1 : lexLt a b = true)
    (h2 : lexLt b c = true) : lexLt a c = true := by
  induction a generalizing b c with
  | nil =>
      cases c with
      | nil => cases b <;> simp [lexLt] at h1 h2
      | cons z zs => rfl
  | cons x xs ih =>
      cases b with
      | nil => simp [lexLt] at h1
      | cons y ys =>
          cases c with
          | nil => simp [lexLt] at h2
          | cons z zs =>
              simp only [lexLt] at h1 h2 ⊢
              by_cases hxy : x < y
              · by_cases hyz : y < z
                · simp [Nat.lt_trans hxy hyz]
                · by_cases hzy : z < y
                  · simp [hyz, hzy] at h2
                  · have : y = z := Nat.le_antisymm (Nat.not_lt.mp hzy) (Nat.not_lt.mp hyz)
                    subst this
                    simp [hxy]
              · by_cases hyx : y < x
                · simp [hxy, hyx] at h1
                · have : x = y := Nat.le_antisymm (Nat.not_lt.mp hyx) (Nat.not_lt.mp hxy)
                  subst this
                  by_cases hyz : x < z
                  · simp [hyz]
                  · by_cases hzy : z < x
                    · simp [hyz, hzy] at h2
                    · have : x = z := Nat.le_antisymm (Nat.not_lt.mp hzy) (Nat.not_lt.mp hyz)
                      subst this
                      simp [hxy, hyx] at h1 h2
                      simp only [if_neg hxy]
                      exact ih h1 h2

/-- A serialized DBKey never sorts below the serialized prefix of its own
AddrId: it extends that prefix byte for byte. -/
lemma lexLt_serDBKey_ownPrefix (k : DBKey) :
    lexLt (serDBKey k) (serDBKeyPrefix k.m_addr_id) = false := by
  rw [serDBKey]
  exact lexLt_append_left_self _ _

/-! ### The scan loop of ReadAddrIndex -/

/-- Once the scan loop of ReadAddrIndex stands on an entry whose AddrId
matches the query but whose stored script does not, the `continue` taken
without advancing the iterator repeats the same iteration: no amount of fuel
finishes the loop. -/
lemma readLoop_stuck (a : Nat) (s : Script) (k : DBKey) (v : DBValue) (rest : Db)
    (acc : List (DBKey × DBValue)) (h1 : k.m_addr_id = a) (h2 : v.2 ≠ s) :
    ∀ fuel, readLoop a s fuel ((k, v) :: rest) acc = none := by
  intro fuel
  induction fuel with
  | zero => rfl
  | succ n ih => simp [readLoop, h1, h2, ih]

/-- When every scanned entry whose AddrId matches the query carries the
queried script, the loop never takes the stuck `continue` branch: with fuel
beyond the iterator length it returns the accumulated matches, namely the
initial run of entries with the queried AddrId. -/
lemma readLoop_run (a : Nat) (s : Script) :
    ∀ (it : Db) (acc : List (DBKey × DBValue)) (fuel : Nat),
      (∀ e ∈ it, e.1.m_addr_id = a → e.2.2 = s) → it.length < fuel →
      readLoop a s fuel it acc =
        some (acc ++ it.takeWhile (fun e => e.1.m_addr_id == a))
  | [], acc, fuel, _, hfuel => by
      cases fuel with
      | zero => omega
      | succ n => simp [readLoop]
  | (k, v) :: rest, acc, fuel, hcoll, hfuel => by
      cases fuel with
      | zero => simp at hfuel
      | succ n =>
          by_cases hid : k.m_addr_id = a
          · have hv : v.2 = s := hcoll (k, v) (by simp) hid
            have hrest : ∀ e ∈ rest, e.1.m_addr_id = a → e.2.2 = s := by
              intro e he
              exact hcoll e (by simp [he])
            have hn : rest.length < n := by simpa using hfuel
            have hb : (k.m_addr_id == a) = true := by simpa using hid
            simp only [readLoop, hid, ite_not, if_true]
            rw [if_pos hv]
            rw [readLoop_run a s rest (acc ++ [(k, v)]) n hrest hn]
            simp [List.takeWhile, hb]
          · have hb : (k.m_addr_id == a) = false := by simpa using hid
            simp [readLoop, hid, List.takeWhile, hb]

/-! ### C5 and C1: the collision `continue` never advances the iterator -/

/-- C5.  The claim states that for every database state the prefix-scan loop
of ReadAddrIndex terminates, each visited entry being processed exactly once
with the iterator advancing past it.  This is refuted by the code: on a
database holding, under the queried AddrId 5, one entry whose stored script
differs from the queried script, the loop hits the `continue` that does not
call iter->Next() and runs forever — the model returns `none` at every fuel
bound. -/
theorem c5_readAddrIndex_scan_diverges :
    (fun fuel => ReadAddrIndex fuel
      [(⟨5, DBKeyType.CREATED, ⟨2, 0⟩⟩, (⟨0, 0, 1⟩, ([1] : Script)))] 5 [2]) =
    (fun _ => (none : Option (List (DBKey × DBValue)))) := by
  funext fuel
  have hseek : dbSeek
      [(⟨5, DBKeyType.CREATED, ⟨2, 0⟩⟩, (⟨0, 0, 1⟩, ([1] : Script)))]
      (serDBKeyPrefix 5) =
      [(⟨5, DBKeyType.CREATED, ⟨2, 0⟩⟩, (⟨0, 0, 1⟩, ([1] : Script)))] := by
    decide
  rw [ReadAddrIndex, hseek]
  exact readLoop_stuck 5 [2] ⟨5, DBKeyType.CREATED, ⟨2, 0⟩⟩ (⟨0, 0, 1⟩, [1]) [] []
    rfl (by decide) fuel

/-- C1.  The claim states that FindTxsByScript returns exactly the entries
stored under AddrId(script) whose stored script equals the queried one,
skipping hash collisions.  Refuted: on a database whose single entry lies
under AddrId(queried script) but stores a different script — the very
collision situation the stored script copy exists for — the lookup never
returns at all (the scan loop repeats the colliding entry forever), for any
choice of block-file contents and deserializer. -/
theorem c1_findTxsByScript_collision_diverges :
    (fun fuel => FindTxsByScript (fun _ => none) (fun _ _ => none) fuel 0
      [(⟨GetAddrId 0 [2], DBKeyType.CREATED, ⟨1, 0⟩⟩, (⟨0, 0, 1⟩, ([1] : Script)))] [2]) =
    (fun _ => (none : Option (Bool × List LookupRes × List LookupRes))) := by
  funext fuel
  have hread : ReadAddrIndex fuel
      [(⟨GetAddrId 0 [2], DBKeyType.CREATED, ⟨1, 0⟩⟩, (⟨0, 0, 1⟩, ([1] : Script)))]
      (GetAddrId 0 [2]) [2] = none := by
    have hseek : dbSeek
        [(⟨GetAddrId 0 [2], DBKeyType.CREATED, ⟨1, 0⟩⟩, (⟨0, 0, 1⟩, ([1] : Script)))]
        (serDBKeyPrefix (GetAddrId 0 [2])) =
        [(⟨GetAddrId 0 [2], DBKeyType.CREATED, ⟨1, 0⟩⟩, (⟨0, 0, 1⟩, ([1] : Script)))] := by
      decide
    rw [ReadAddrIndex, hseek]
    exact readLoop_stuck (GetAddrId 0 [2]) [2]
      ⟨GetAddrId 0 [2], DBKeyType.CREATED, ⟨1, 0⟩⟩ (⟨0, 0, 1⟩, [1]) [] []
      rfl (by decide) fuel
  simp only [FindTxsByScript, hread]

/-! ### C9: seed setup and fingerprint determinism across reopen -/

/-- C9.  Init establishes a persistent fingerprint seed: an existing seed
record is loaded and used as is; on a fresh store the drawn seed is written
under the seed key before anything proceeds; and re-running Init on the
resulting store (reopening the database) returns the same seed, so GetAddrId
agrees on every script across the reopen. -/
theorem c9_init_seed_persistent (store : IndexStore) (r1 r2 : Nat) :
    (∀ s, store.seedRecord = some s → IndexInit store r1 = (s, store)) ∧
    (store.seedRecord = none →
      IndexInit store r1 = (r1, { seedRecord := some r1, entries := store.entries })) ∧
    (IndexInit (IndexInit store r1).2 r2).1 = (IndexInit store r1).1 ∧
    (∀ script, GetAddrId (IndexInit (IndexInit store r1).2 r2).1 script =
      GetAddrId (IndexInit store r1).1 script) := by
  refine ⟨?_, ?_, ?_, ?_⟩ <;> cases h : store.seedRecord <;>
    simp [IndexInit, SetupHashSeed, h]

/-- Witness for C9 at a concrete fresh store and a concrete reopen. -/
theorem c9_init_seed_persistent_witness :
    IndexInit ⟨none, []⟩ 7 = (7, ⟨some 7, []⟩) ∧
    (IndexInit (IndexInit ⟨none, []⟩ 7).2 9).1 = 7 := by
  constructor
  · exact (c9_init_seed_persistent ⟨none, []⟩ 7 9).2.1 rfl
  · rw [(c9_init_seed_persistent ⟨none, []⟩ 7 9).2.2.1]
    rw [(c9_init_seed_persistent ⟨none, []⟩ 7 9).2.1 rfl]

/-! ### C8: one batch per block, failure leaves the store untouched -/

/-- C8.  Connecting a block is atomic for the index: when the undo read
fails on a non-genesis block, WriteBlock returns false with the database
exactly its pre-block state; when it succeeds, the whole entry list of the
block is committed by a single application of WriteToIndex — one write
batch. -/
theorem c8_writeBlock_atomicity (serTx : CTransaction → List Nat) (seed : Nat)
    (db : Db) (block : CBlock) (blockFile blockPos nHeight : Nat) :
    (0 < nHeight →
      WriteBlock serTx seed db block none blockFile blockPos nHeight = some (false, db)) ∧
    (∀ u es, blockEntries serTx seed block u blockFile blockPos nHeight = some es →
      WriteBlock serTx seed db block (some u) blockFile blockPos nHeight =
        some (true, WriteToIndex db es)) := by
  constructor
  · intro h
    simp [WriteBlock, h]
  · intro u es hes
    simp [WriteBlock, hes]

/-- Witness for C8: a height-1 block whose undo read fails leaves the empty
store empty, and the same block with its (empty) undo record commits. -/
theorem c8_writeBlock_atomicity_witness :
    WriteBlock (fun _ => []) 0 [] ⟨[]⟩ none 0 0 1 = some (false, []) ∧
    WriteBlock (fun _ => []) 0 [] ⟨[]⟩ (some ⟨[]⟩) 0 0 1 = some (true, []) := by
  constructor
  · exact (c8_writeBlock_atomicity (fun _ => []) 0 [] ⟨[]⟩ 0 0 1).1 (by decide)
  · exact (c8_writeBlock_atomicity (fun _ => []) 0 [] ⟨[]⟩ 0 0 1).2 ⟨[]⟩ [] rfl

/-! ### C10: undo accesses stay in bounds; genesis reads no undo data -/

/-- When every guarded undo access of the entry-building loop is in bounds,
the loop returns exactly the guard-free entry list. -/
lemma blockEntriesGo_eq_some (serTx : CTransaction → List Nat) (seed : Nat)
    (g : Bool) (undo : CBlockUndo) (bf bp : Nat) :
    ∀ (l : List (Nat × CTransaction)) (off : Nat),
      (∀ p ∈ l, (g = true ∧ 0 < p.1) →
        ∃ tu, undo.vtxundo.get? (p.1 - 1) = some tu ∧
          p.2.vin.length ≤ tu.vprevout.length) →
      blockEntriesGo serTx seed g undo bf bp l off =
        some (blockEntriesListGo serTx seed g undo bf bp l off)
  | [], off, _ => rfl
  | (i, tx) :: rest, off, h => by
      have hrest := blockEntriesGo_eq_some serTx seed g undo bf bp rest
        (off + (serTx tx).length) (fun p hp => h p (List.mem_cons_of_mem _ hp))
      by_cases hg : g = true ∧ 0 < i
      · obtain ⟨tu, htu, hlen⟩ := h (i, tx) (List.mem_cons_self _ _) hg
        simp only [blockEntriesGo, blockEntriesListGo, if_pos hg, htu,
          txSpentEntries, if_pos hlen, hrest]
      · simp only [blockEntriesGo, blockEntriesListGo, if_neg hg, hrest]

/-- For the genesis traversal (g = false) the undo record is never consulted:
the entry list does not depend on it. -/
lemma blockEntriesListGo_genesis_undo_free (serTx : CTransaction → List Nat)
    (seed : Nat) (undo undo2 : CBlockUndo) (bf bp : Nat) :
    ∀ (l : List (Nat × CTransaction)) (off : Nat),
      blockEntriesListGo serTx seed false undo bf bp l off =
        blockEntriesListGo serTx seed false undo2 bf bp l off
  | [], _ => rfl
  | (i, tx) :: rest, off => by
      simp only [blockEntriesListGo,
        blockEntriesListGo_genesis_undo_free serTx seed undo undo2 bf bp rest
          (off + (serTx tx).length)]
      simp

/-- Every entry of the genesis traversal is a CREATED entry. -/
lemma blockEntriesListGo_genesis_created (serTx : CTransaction → List Nat)
    (seed : Nat) (undo : CBlockUndo) (bf bp : Nat) :
    ∀ (l : List (Nat × CTransaction)) (off : Nat),
      ∀ e ∈ blockEntriesListGo serTx seed false undo bf bp l off,
        e.1.m_key_type = DBKeyType.CREATED
  | [], _ => by simp [blockEntriesListGo]
  | (i, tx) :: rest, off => by
      intro e he
      simp only [blockEntriesListGo, List.mem_append] at he
      rcases he with (hc | hs) | hr
      · simp only [txCreatedEntries, List.mem_map] at hc
        obtain ⟨jo, _, rfl⟩ := hc
        rfl
      · simp at hs
      · exact blockEntriesListGo_genesis_created serTx seed undo bf bp rest
          (off + (serTx tx).length) e hr

/-- When the undo record mirrors the block — one vtxundo element per
non-coinbase transaction, one vprevout element per input — the entry build
of WriteBlock performs no out-of-bounds access and yields the guard-free
entry list. -/
lemma blockEntries_eq_some_of_mirror (serTx : CTransaction → List Nat)
    (seed : Nat) (block : CBlock) (undo : CBlockUndo) (bf bp nHeight : Nat)
    (hmirror : undo.vtxundo.length = block.vtx.length - 1)
    (hshape : ∀ i tx tu, block.vtx.get? i = some tx →
      undo.vtxundo.get? (i - 1) = some tu → 0 < i →
      tu.vprevout.length = tx.vin.length) :
    blockEntries serTx seed block undo bf bp nHeight =
      some (blockEntriesList serTx seed block undo bf bp nHeight) := by
  rw [blockEntries, blockEntriesList]
  apply blockEntriesGo_eq_some
  intro p hp hg
  have hget : block.vtx.get? p.1 = some p.2 := by
    have := List.mk_mem_enum_iff_get?.mp hp
    simpa using this
  have hlt : p.1 < block.vtx.length := by
    obtain ⟨h1, _⟩ := List.get?_eq_some.mp hget
    exact h1
  have hu : p.1 - 1 < undo.vtxundo.length := by
    omega
  refine ⟨undo.vtxundo.get ⟨p.1 - 1, hu⟩, List.get?_eq_get hu, ?_⟩
  have := hshape p.1 p.2 (undo.vtxundo.get ⟨p.1 - 1, hu⟩) hget
    (List.get?_eq_get hu) hg.2
  omega

/-- C10.  Under the preconditions that the block is not the genesis block
and its undo record mirrors block.vtx starting at index 1 — one vtxundo
element per non-coinbase transaction, each with one vprevout element per
input — every undo access of WriteBlock is in bounds (the entry build
yields a value instead of the out-of-bounds marker); and at height 0 the
build never reads the undo data at all and emits no SPENT entry. -/
theorem c10_writeBlock_undo_bounds (serTx : CTransaction → List Nat) (seed : Nat)
    (block : CBlock) (undo : CBlockUndo) (blockFile blockPos : Nat) :
    (∀ nHeight, 0 < nHeight →
      undo.vtxundo.length = block.vtx.length - 1 →
      (∀ i tx tu, block.vtx.get? i = some tx → undo.vtxundo.get? (i - 1) = some tu →
        0 < i → tu.vprevout.length = tx.vin.length) →
      blockEntries serTx seed block undo blockFile blockPos nHeight =
        some (blockEntriesList serTx seed block undo blockFile blockPos nHeight)) ∧
    ((∀ undo2, blockEntriesList serTx seed block undo blockFile blockPos 0 =
        blockEntriesList serTx seed block undo2 blockFile blockPos 0) ∧
      blockEntries serTx seed block undo blockFile blockPos 0 =
        some (blockEntriesList serTx seed block undo blockFile blockPos 0) ∧
      ∀ e ∈ blockEntriesList serTx seed block undo blockFile blockPos 0,
        e.1.m_key_type ≠ DBKeyType.SPENT) := by
  refine ⟨?_, ?_, ?_, ?_⟩
  · intro nHeight hpos hmirror hshape
    rw [blockEntries, blockEntriesList]
    apply blockEntriesGo_eq_some
    intro p hp hg
    have hget : block.vtx.get? p.1 = some p.2 := by
      have := List.mk_mem_enum_iff_get?.mp hp
      simpa using this
    have hlt : p.1 < block.vtx.length := by
      obtain ⟨h1, _⟩ := List.get?_eq_some.mp hget
      exact h1
    have hu : p.1 - 1 < undo.vtxundo.length := by
      omega
    refine ⟨undo.vtxundo.get ⟨p.1 - 1, hu⟩, List.get?_eq_get hu, ?_⟩
    have := hshape p.1 p.2 (undo.vtxundo.get ⟨p.1 - 1, hu⟩) hget
      (List.get?_eq_get hu) hg.2
    omega
  · intro undo2
    rw [blockEntriesList, blockEntriesList]
    simp only [decide_eq_true_eq, Nat.lt_irrefl, decide_eq_false_iff_not]
    exact blockEntriesListGo_genesis_undo_free serTx seed undo undo2 blockFile
      blockPos _ _
  · rw [blockEntries, blockEntriesList]
    apply blockEntriesGo_eq_some
    intro p _ hg
    simp at hg
  · intro e he
    rw [blockEntriesList] at he
    simp only [Nat.lt_irrefl, decide_eq_false_iff_not] at he
    intro hk
    have := blockEntriesListGo_genesis_created serTx seed undo blockFile blockPos
      _ _ e (by simpa using he)
    rw [hk] at this
    exact absurd this (by simp)

/-- Witness for C10 at the concrete two-transaction block with its mirroring
undo record (height 1), and at height 0. -/
theorem c10_writeBlock_undo_bounds_witness :
    blockEntries serTxOne 0 testBlock testUndo 0 0 1 =
      some (blockEntriesList serTxOne 0 testBlock testUndo 0 0 1) ∧
    blockEntries serTxOne 0 testBlock testUndo 0 0 0 =
      some (blockEntriesList serTxOne 0 testBlock testUndo 0 0 0) := by
  constructor
  · apply (c10_writeBlock_undo_bounds serTxOne 0 testBlock testUndo 0 0).1 1
      (by decide) (by decide)
    intro i tx tu hget htu hi
    match i, hi with
    | 1, _ =>
        simp [testBlock, cbTx, spendTx] at hget
        simp [testUndo] at htu
        rw [← hget, ← htu]
        decide
    | n + 2, _ =>
        simp [testBlock, cbTx, spendTx] at hget
  · exact (c10_writeBlock_undo_bounds serTxOne 0 testBlock testUndo 0 0).2.2.1

/-! ### C4: what the return value of FindTxsByScript distinguishes -/

/-- C4 counterexample.  The claim states that when no entry for the script
exists and no I/O error occurs, FindTxsByScript returns success with empty
result vectors.  On the empty database and script [2] the call instead
returns false — the very value its error paths return — with empty
vectors. -/
theorem c4_counterexample_empty_returns_false :
    FindTxsByScript (fun _ => none) (fun _ _ => none) 1 0 [] [2] =
      some (false, [], []) := rfl

/-- C4 as amended.  When the scan finds no entry for the script, the call
returns false — the same boolean the error paths return, so the boolean does
not distinguish the two — with the result vectors left empty; and when a
block-file read fails partway, the call aborts with false, leaving the
elements materialized before the failure in the result vectors. -/
theorem c4_lookup_error_semantics (deserTx : List Nat → Option (CTransaction × List Nat))
    (blockFiles : Nat → Nat → Option (List Nat)) (fuel seed : Nat) (db : Db)
    (script : Script) (entries : List (DBKey × DBValue))
    (hread : ReadAddrIndex fuel db (GetAddrId seed script) script = some entries) :
    (entries = [] →
      FindTxsByScript deserTx blockFiles fuel seed db script = some (false, [], [])) ∧
    (∀ k1 v1 k2 v2 rest tx hdr,
      entries = (k1, v1) :: (k2, v2) :: rest →
      readTxFromDisk deserTx blockFiles v1.1 = some (tx, hdr) →
      k1.m_key_type = DBKeyType.CREATED →
      readTxFromDisk deserTx blockFiles v2.1 = none →
      FindTxsByScript deserTx blockFiles fuel seed db script =
        some (false, [], [(k1.m_outpoint, tx, hdr)])) := by
  constructor
  · intro h
    subst h
    simp [FindTxsByScript, hread]
  · intro k1 v1 k2 v2 rest tx hdr hent h1 hk h2
    subst hent
    simp [FindTxsByScript, hread, findTxsLoop, h1, hk, h2]

/-- Witness for C4 at a concrete store: two matching entries, the first
readable (yielding the transaction with hash 9), the second at a file whose
open fails; the call returns false with the first result left in the
creations vector. -/
theorem c4_lookup_error_semantics_witness :
    FindTxsByScript testDeser testFiles 3 0 testDb [3] =
      some (false, [], [(⟨1, 0⟩, ⟨9, [], []⟩, List.replicate 80 0)]) :=
  (c4_lookup_error_semantics testDeser testFiles 3 0 testDb [3]
      [(⟨GetAddrId 0 [3], DBKeyType.CREATED, ⟨1, 0⟩⟩, (⟨0, 0, 0⟩, [3])),
       (⟨GetAddrId 0 [3], DBKeyType.CREATED, ⟨2, 0⟩⟩, (⟨1, 0, 0⟩, [3]))]
      (by decide)).2
    ⟨GetAddrId 0 [3], DBKeyType.CREATED, ⟨1, 0⟩⟩ (⟨0, 0, 0⟩, [3])
    ⟨GetAddrId 0 [3], DBKeyType.CREATED, ⟨2, 0⟩⟩ (⟨1, 0, 0⟩, [3]) []
    ⟨9, [], []⟩ (List.replicate 80 0) rfl (by decide) rfl (by decide)

/-! ### C6: key layout — prefix, kind position, contiguity of one AddrId -/

lemma leBytes_length (w n : Nat) : (leBytes w n).length = w := by
  induction w generalizing n with
  | zero => rfl
  | succ w ih => simp [leBytes, ih]

lemma leBytes_inj (w : Nat) : ∀ n m, n < 256 ^ w → m < 256 ^ w →
    leBytes w n = leBytes w m → n = m := by
  induction w with
  | zero =>
      intro n m hn hm _
      simp [Nat.pow_zero, Nat.lt_one_iff] at hn hm
      rw [hn, hm]
  | succ w ih =>
      intro n m hn hm h
      simp only [leBytes, List.cons.injEq] at h
      have hd : n / 256 = m / 256 := by
        apply ih
        · exact Nat.lt_of_mul_lt_mul_left (a := 256)
            (by calc 256 * (n / 256) ≤ n := Nat.mul_div_le n 256
                _ < 256 ^ (w + 1) := hn
                _ = 256 * 256 ^ w := by ring)
        · exact Nat.lt_of_mul_lt_mul_left (a := 256)
            (by calc 256 * (m / 256) ≤ m := Nat.mul_div_le m 256
                _ < 256 ^ (w + 1) := hm
                _ = 256 * 256 ^ w := by ring)
        · exact h.2
      omega

lemma serDBKeyPrefix_length (a : Nat) : (serDBKeyPrefix a).length = 5 := by
  simp [serDBKeyPrefix, leBytes_length]

lemma serDBKeyPrefix_inj (a b : Nat) (ha : a < 2 ^ 32) (hb : b < 2 ^ 32)
    (h : serDBKeyPrefix a = serDBKeyPrefix b) : a = b := by
  simp only [serDBKeyPrefix, List.cons.injEq, true_and] at h
  exact leBytes_inj 4 a b (by norm_num at ha ⊢; omega) (by norm_num at hb ⊢; omega) h

/-- C6.  The serialized form of every full index key begins with the
serialized DBKeyPrefix of its AddrId, with the kind byte following the
AddrId (first conjunct, the layout itself); a serialized prefix for AddrId
`a` leads a serialized key exactly when that key's AddrId is `a` (second
conjunct: the seek target covers both SPENT and CREATED keys of `a` and no
key of another AddrId); and in the lexicographic key order, any key lying
between two keys of AddrId `a` itself has AddrId `a` — the prefix range is
contiguous, so one ascending scan from the prefix visits every key of the
AddrId before the prefix changes (third conjunct). -/
theorem c6_key_layout_prefix_contiguous (a : Nat) (x y z : DBKey)
    (ha : a < 2 ^ 32) (hx : x.m_addr_id < 2 ^ 32) (hy : y.m_addr_id < 2 ^ 32)
    (hz : z.m_addr_id < 2 ^ 32) :
    (∀ k : DBKey, serDBKey k =
      serDBKeyPrefix k.m_addr_id ++ (k.m_key_type.toByte :: serOutPoint k.m_outpoint)) ∧
    ((∃ u, serDBKeyPrefix a ++ u = serDBKey x) ↔ x.m_addr_id = a) ∧
    (lexLt (serDBKey y) (serDBKey x) = false →
      lexLt (serDBKey z) (serDBKey y) = false →
      x.m_addr_id = a → z.m_addr_id = a → y.m_addr_id = a) := by
  refine ⟨fun k => rfl, ⟨?_, ?_⟩, ?_⟩
  · rintro ⟨u, hu⟩
    rw [serDBKey] at hu
    have hlen : (serDBKeyPrefix a).length = (serDBKeyPrefix x.m_addr_id).length := by
      rw [serDBKeyPrefix_length, serDBKeyPrefix_length]
    obtain ⟨h1, _⟩ := List.append_inj hu hlen
    exact (serDBKeyPrefix_inj a x.m_addr_id ha hx h1).symm
  · intro h
    exact ⟨x.m_key_type.toByte :: serOutPoint x.m_outpoint, by rw [serDBKey, h]⟩
  · intro hyx hzy hxa hza
    by_contra hne
    have hpy : serDBKeyPrefix y.m_addr_id ≠ serDBKeyPrefix a := by
      intro h
      exact hne (serDBKeyPrefix_inj y.m_addr_id a hy ha h)
    have hxs : serDBKey x = serDBKeyPrefix a ++
        (x.m_key_type.toByte :: serOutPoint x.m_outpoint) := by
      rw [serDBKey, hxa]
    have hzs : serDBKey z = serDBKeyPrefix a ++
        (z.m_key_type.toByte :: serOutPoint z.m_outpoint) := by
      rw [serDBKey, hza]
    have hys : serDBKey y = serDBKeyPrefix y.m_addr_id ++
        (y.m_key_type.toByte :: serOutPoint y.m_outpoint) := rfl
    have hlen : (serDBKeyPrefix y.m_addr_id).length = (serDBKeyPrefix a).length := by
      rw [serDBKeyPrefix_length, serDBKeyPrefix_length]
    have h1 : lexLt (serDBKeyPrefix y.m_addr_id) (serDBKeyPrefix a) = false := by
      have := lexLt_append_of_ne (serDBKeyPrefix y.m_addr_id) (serDBKeyPrefix a)
        (y.m_key_type.toByte :: serOutPoint y.m_outpoint)
        (x.m_key_type.toByte :: serOutPoint x.m_outpoint) hlen hpy
      rw [hys, hxs] at hyx
      rw [← this]
      exact hyx
    have h2 : lexLt (serDBKeyPrefix a) (serDBKeyPrefix y.m_addr_id) = false := by
      have := lexLt_append_of_ne (serDBKeyPrefix a) (serDBKeyPrefix y.m_addr_id)
        (z.m_key_type.toByte :: serOutPoint z.m_outpoint)
        (y.m_key_type.toByte :: serOutPoint y.m_outpoint) hlen.symm (Ne.symm hpy)
      rw [hzs, hys] at hzy
      rw [← this]
      exact hzy
    exact hpy (eq_of_not_lexLt _ _ hlen h1 h2)

/-- Witness for C6: AddrId 5 with a SPENT key and a CREATED key of the same
AddrId — both are led by the same serialized prefix — and a key sandwiched
between two AddrId-5 keys has AddrId 5. -/
theorem c6_key_layout_prefix_contiguous_witness :
    (∃ u, serDBKeyPrefix 5 ++ u = serDBKey ⟨5, DBKeyType.SPENT, ⟨1, 0⟩⟩) ∧
    (∃ u, serDBKeyPrefix 5 ++ u = serDBKey ⟨5, DBKeyType.CREATED, ⟨1, 0⟩⟩) := by
  constructor
  · exact (c6_key_layout_prefix_contiguous 5 ⟨5, DBKeyType.SPENT, ⟨1, 0⟩⟩
      ⟨5, DBKeyType.CREATED, ⟨1, 0⟩⟩ ⟨5, DBKeyType.CREATED, ⟨2, 0⟩⟩
      (by norm_num) (by norm_num) (by norm_num) (by norm_num)).2.1.mpr rfl
  · exact (c6_key_layout_prefix_contiguous 5 ⟨5, DBKeyType.CREATED, ⟨1, 0⟩⟩
      ⟨5, DBKeyType.SPENT, ⟨1, 0⟩⟩ ⟨5, DBKeyType.CREATED, ⟨2, 0⟩⟩
      (by norm_num) (by norm_num) (by norm_num) (by norm_num)).2.1.mpr rfl

/-! ### Store-level lemmas: sorted insert, point lookup, batch writes -/

lemma serDBKey_length (k : DBKey) : (serDBKey k).length = 42 := by
  simp [serDBKey, serDBKeyPrefix, serOutPoint, leBytes_length]

lemma lexLt_total_of_ne (s t : List Nat) (hlen : s.length = t.length)
    (hne : s ≠ t) (h : lexLt s t = false) : lexLt t s = true := by
  cases hts : lexLt t s with
  | true => rfl
  | false => exact absurd (eq_of_not_lexLt s t hlen h hts) hne

lemma find?_eq_of_unique {α : Type} (p : α → Bool) (l : List α) (a : α)
    (ha : a ∈ l) (hp : p a = true) (huniq : ∀ b ∈ l, p b = true → b = a) :
    l.find? p = some a := by
  induction l with
  | nil => simp at ha
  | cons x xs ih =>
      by_cases hx : p x = true
      · have : x = a := huniq x (List.mem_cons_self _ _) hx
        subst this
        simp [List.find?, hx]
      · have hxf : p x = false := by simpa using hx
        have hax : a ≠ x := fun h => hx (h ▸ hp)
        have ha2 : a ∈ xs := by
          rcases List.mem_cons.mp ha with h | h
          · exact absurd h hax
          · exact h
        rw [List.find?, hxf]
        exact ih ha2 (fun b hb hpb => huniq b (List.mem_cons_of_mem _ hb) hpb)


lemma dbGet_nil (k : DBKey) : dbGet [] k = none := rfl

lemma dbGet_cons (f : DBKey × DBValue) (rest : Db) (k : DBKey) :
    dbGet (f :: rest) k =
      if serDBKey f.1 = serDBKey k then some f.2 else dbGet rest k := by
  by_cases h : serDBKey f.1 = serDBKey k
  · simp [dbGet, List.find?, h]
  · simp [dbGet, List.find?, h]

lemma dbInsert_nil (e : DBKey × DBValue) : dbInsert [] e = [e] := rfl

lemma dbInsert_cons (f : DBKey × DBValue) (rest : Db) (e : DBKey × DBValue) :
    dbInsert (f :: rest) e =
      if serDBKey e.1 = serDBKey f.1 then e :: rest
      else if lexLt (serDBKey e.1) (serDBKey f.1) then e :: f :: rest
      else f :: dbInsert rest e := rfl

lemma dbGet_dbInsert (e : DBKey × DBValue) (k : DBKey) :
    ∀ (db : Db), dbGet (dbInsert db e) k =
      if serDBKey k = serDBKey e.1 then some e.2 else dbGet db k := by
  intro db
  induction db with
  | nil =>
      rw [dbInsert_nil, dbGet_cons, dbGet_nil]
      by_cases h : serDBKey k = serDBKey e.1
      · rw [if_pos h.symm, if_pos h]
      · rw [if_neg (fun hh => h hh.symm), if_neg h]
  | cons f rest ih =>
      rw [dbInsert_cons]
      by_cases h1 : serDBKey e.1 = serDBKey f.1
      · rw [if_pos h1, dbGet_cons]
        by_cases hk : serDBKey k = serDBKey e.1
        · rw [if_pos hk.symm, if_pos hk]
        · rw [if_neg (fun hh => hk hh.symm), if_neg hk, dbGet_cons,
            if_neg (fun hh : serDBKey f.1 = serDBKey k => hk (h1.trans hh).symm)]
      · rw [if_neg h1]
        by_cases h2 : lexLt (serDBKey e.1) (serDBKey f.1) = true
        · rw [if_pos h2, dbGet_cons]
          by_cases hk : serDBKey k = serDBKey e.1
          · rw [if_pos hk.symm, if_pos hk]
          · rw [if_neg (fun hh => hk hh.symm), if_neg hk]
        · rw [if_neg h2, dbGet_cons]
          by_cases hkf : serDBKey f.1 = serDBKey k
          · rw [if_pos hkf]
            have hk : ¬ serDBKey k = serDBKey e.1 :=
              fun hh => h1 ((hkf.trans hh).symm)
            rw [if_neg hk, dbGet_cons, if_pos hkf]
          · rw [if_neg hkf, ih]
            by_cases hk : serDBKey k = serDBKey e.1
            · rw [if_pos hk, if_pos hk]
            · rw [if_neg hk, if_neg hk, dbGet_cons, if_neg hkf]

lemma dbGet_WriteToIndex (es : List (DBKey × DBValue)) :
    ∀ (db : Db) (k : DBKey),
      dbGet (WriteToIndex db es) k =
        match es.reverse.find? (fun f => serDBKey f.1 = serDBKey k) with
        | some f => some f.2
        | none => dbGet db k := by
  induction es with
  | nil => intro db k; rfl
  | cons e es ih =>
      intro db k
      have step : WriteToIndex db (e :: es) = WriteToIndex (dbInsert db e) es := rfl
      rw [step, ih]
      rw [List.reverse_cons, List.find?_append]
      cases hf : es.reverse.find? (fun f => decide (serDBKey f.1 = serDBKey k)) with
      | some f => rw [Option.or_some]
      | none =>
          rw [Option.none_or]
          rw [dbGet_dbInsert]
          by_cases hk : serDBKey k = serDBKey e.1
          · have h2 : List.find? (fun f => decide (serDBKey f.1 = serDBKey k)) [e] =
                some e := by
              simp [List.find?, hk.symm]
            rw [if_pos hk, h2]
          · have h3 : serDBKey e.1 ≠ serDBKey k := fun h => hk h.symm
            have h2 : List.find? (fun f => decide (serDBKey f.1 = serDBKey k)) [e] =
                none := by
              simp [List.find?, h3]
            rw [if_neg hk, h2]

lemma mem_dbInsert (db : Db) (e x : DBKey × DBValue) :
    x ∈ dbInsert db e → x = e ∨ x ∈ db := by
  induction db with
  | nil => intro h; rw [dbInsert_nil] at h; exact Or.inl (by simpa using h)
  | cons f rest ih =>
      intro h
      rw [dbInsert_cons] at h
      by_cases h1 : serDBKey e.1 = serDBKey f.1
      · rw [if_pos h1] at h
        rcases List.mem_cons.mp h with h | h
        · exact Or.inl h
        · exact Or.inr (List.mem_cons_of_mem _ h)
      · rw [if_neg h1] at h
        by_cases h2 : lexLt (serDBKey e.1) (serDBKey f.1) = true
        · rw [if_pos h2] at h
          rcases List.mem_cons.mp h with h | h
          · exact Or.inl h
          · exact Or.inr h
        · rw [if_neg h2] at h
          rcases List.mem_cons.mp h with h | h
          · exact Or.inr (h ▸ List.mem_cons_self _ _)
          · rcases ih h with h | h
            · exact Or.inl h
            · exact Or.inr (List.mem_cons_of_mem _ h)

lemma mem_WriteToIndex (es : List (DBKey × DBValue)) :
    ∀ (db : Db) (x : DBKey × DBValue),
      x ∈ WriteToIndex db es → x ∈ db ∨ x ∈ es := by
  induction es with
  | nil => intro db x h; exact Or.inl h
  | cons e es ih =>
      intro db x h
      rcases ih (dbInsert db e) x h with h | h
      · rcases mem_dbInsert db e x h with h | h
        · exact Or.inr (h ▸ List.mem_cons_self _ _)
        · exact Or.inl h
      · exact Or.inr (List.mem_cons_of_mem _ h)

lemma head?_dbInsert (db : Db) (e x : DBKey × DBValue) :
    (dbInsert db e).head? = some x → x = e ∨ db.head? = some x := by
  cases db with
  | nil => intro h; rw [dbInsert_nil] at h; exact Or.inl (by simpa using h.symm)
  | cons f rest =>
      intro h
      rw [dbInsert_cons] at h
      by_cases h1 : serDBKey e.1 = serDBKey f.1
      · rw [if_pos h1] at h
        exact Or.inl (by simpa using h.symm)
      · rw [if_neg h1] at h
        by_cases h2 : lexLt (serDBKey e.1) (serDBKey f.1) = true
        · rw [if_pos h2] at h
          exact Or.inl (by simpa using h.symm)
        · rw [if_neg h2] at h
          exact Or.inr (by simpa using h)

lemma dbInsert_sorted (e : DBKey × DBValue) :
    ∀ (db : Db), DbSorted db → DbSorted (dbInsert db e) := by
  intro db
  induction db with
  | nil => intro _; rw [dbInsert_nil]; exact List.chain'_singleton e
  | cons f rest ih =>
      intro hs
      have hhead := (List.chain'_cons'.mp hs).1
      have htail := (List.chain'_cons'.mp hs).2
      rw [dbInsert_cons]
      by_cases h1 : serDBKey e.1 = serDBKey f.1
      · rw [if_pos h1]
        exact List.chain'_cons'.mpr ⟨fun b hb => h1 ▸ hhead b hb, htail⟩
      · rw [if_neg h1]
        by_cases h2 : lexLt (serDBKey e.1) (serDBKey f.1) = true
        · rw [if_pos h2]
          refine List.chain'_cons'.mpr ⟨fun b hb => ?_, hs⟩
          have hb2 : f = b := by simpa using hb
          rw [← hb2]
          exact h2
        · rw [if_neg h2]
          have hfe : lexLt (serDBKey f.1) (serDBKey e.1) = true := by
            apply lexLt_total_of_ne _ _ (by rw [serDBKey_length, serDBKey_length])
              (fun h => h1 h) (by simpa using h2)
          refine List.chain'_cons'.mpr ⟨fun b hb => ?_, ih htail⟩
          rcases head?_dbInsert rest e b hb with h | h
          · rw [h]
            exact hfe
          · exact hhead b h

lemma WriteToIndex_sorted (es : List (DBKey × DBValue)) :
    ∀ (db : Db), DbSorted db → DbSorted (WriteToIndex db es) := by
  induction es with
  | nil => intro db h; exact h
  | cons e es ih => intro db h; exact ih (dbInsert db e) (dbInsert_sorted e db h)

lemma chain_head_lexLt (t : List (DBKey × DBValue)) :
    ∀ (h : DBKey × DBValue), DbSorted (h :: t) → ∀ f ∈ t,
      lexLt (serDBKey h.1) (serDBKey f.1) = true := by
  induction t with
  | nil =>
      intro h _ f hf
      simp at hf
  | cons g t ih =>
      intro h hs f hf
      have h1 : lexLt (serDBKey h.1) (serDBKey g.1) = true :=
        (List.chain'_cons.mp hs).1
      rcases List.mem_cons.mp hf with heq | hmem
      · rw [heq]
        exact h1
      · exact lexLt_trans h1 (ih g (List.chain'_cons.mp hs).2 f hmem)

lemma dbCount_le_one (k : DBKey) :
    ∀ (db : Db), DbSorted db → dbCount db k ≤ 1 := by
  intro db
  induction db with
  | nil => intro _; rw [dbCount]; simp
  | cons f rest ih =>
      intro hs
      have hcons : dbCount (f :: rest) k =
          dbCount rest k + if serDBKey f.1 = serDBKey k then 1 else 0 := by
        rw [dbCount, dbCount, List.countP_cons]
        by_cases h : serDBKey f.1 = serDBKey k
        · simp [h]
        · simp [h]
      by_cases hf : serDBKey f.1 = serDBKey k
      · have hzero : dbCount rest k = 0 := by
          rw [dbCount, List.countP_eq_zero]
          intro g hg
          have hlt := chain_head_lexLt rest f hs g hg
          simp only [decide_eq_true_eq]
          intro hgk
          have heq : serDBKey f.1 = serDBKey g.1 := hf.trans hgk.symm
          rw [heq, lexLt_irrefl] at hlt
          exact Bool.false_ne_true hlt
        rw [hcons, hzero, if_pos hf]
      · rw [hcons, if_neg hf]
        have := ih (List.chain'_cons'.mp hs).2
        omega

/-! ### Injectivity of the key serialization and the fingerprint bound -/

lemma xor_shiftRight_lt (x s : Nat) (h : x < 2 ^ 32) : x ^^^ (x >>> s) < 2 ^ 32 := by
  apply Nat.xor_lt_two_pow h
  refine Nat.lt_of_le_of_lt ?_ h
  rw [Nat.shiftRight_eq_div_pow]
  exact Nat.div_le_self _ _

lemma MurmurHash3_lt (nHashSeed : Nat) (vDataToHash : List Nat) :
    MurmurHash3 nHashSeed vDataToHash < 2 ^ 32 := by
  rw [MurmurHash3]
  apply xor_shiftRight_lt
  exact Nat.mod_lt _ (by norm_num)

lemma GetAddrId_lt (seed : Nat) (s : Script) : GetAddrId seed s < 2 ^ 32 :=
  MurmurHash3_lt seed s

lemma DBKeyType_toByte_inj (a b : DBKeyType) (h : a.toByte = b.toByte) : a = b := by
  cases a <;> cases b <;> first | rfl | (simp [DBKeyType.toByte] at h)

lemma serOutPoint_inj (o1 o2 : COutPoint) (h1 : o1.hash < 2 ^ 256)
    (h2 : o2.hash < 2 ^ 256) (h3 : o1.n < 2 ^ 32) (h4 : o2.n < 2 ^ 32)
    (h : serOutPoint o1 = serOutPoint o2) : o1 = o2 := by
  rw [serOutPoint, serOutPoint] at h
  obtain ⟨hh, hn⟩ := List.append_inj h (by rw [leBytes_length, leBytes_length])
  have e1 : o1.hash = o2.hash :=
    leBytes_inj 32 _ _ (by norm_num at h1 ⊢; omega) (by norm_num at h2 ⊢; omega) hh
  have e2 : o1.n = o2.n :=
    leBytes_inj 4 _ _ (by norm_num at h3 ⊢; omega) (by norm_num at h4 ⊢; omega) hn
  cases o1
  cases o2
  simp_all

lemma serDBKey_inj (k1 k2 : DBKey)
    (ha1 : k1.m_addr_id < 2 ^ 32) (ha2 : k2.m_addr_id < 2 ^ 32)
    (hh1 : k1.m_outpoint.hash < 2 ^ 256) (hh2 : k2.m_outpoint.hash < 2 ^ 256)
    (hn1 : k1.m_outpoint.n < 2 ^ 32) (hn2 : k2.m_outpoint.n < 2 ^ 32)
    (h : serDBKey k1 = serDBKey k2) : k1 = k2 := by
  rw [serDBKey, serDBKey] at h
  obtain ⟨hp, htl⟩ := List.append_inj h
    (by rw [serDBKeyPrefix_length, serDBKeyPrefix_length])
  have ea : k1.m_addr_id = k2.m_addr_id := serDBKeyPrefix_inj _ _ ha1 ha2 hp
  simp only [List.cons.injEq] at htl
  have ek : k1.m_key_type = k2.m_key_type := DBKeyType_toByte_inj _ _ htl.1
  have eo : k1.m_outpoint = k2.m_outpoint :=
    serOutPoint_inj _ _ hh1 hh2 hn1 hn2 htl.2
  cases k1
  cases k2
  simp_all

/-! ### What entries a block contributes, and at which positions -/

lemma zip_get?_mem {α β : Type} :
    ∀ (l1 : List α) (l2 : List β) (k : Nat) (a : α) (b : β),
      l1.get? k = some a → l2.get? k = some b → (a, b) ∈ List.zip l1 l2
  | [], _, k, _, _, h, _ => by simp at h
  | _ :: _, [], k, _, _, _, h => by simp at h
  | x :: xs, y :: ys, 0, a, b, h1, h2 => by
      simp at h1 h2
      simp [List.zip_cons_cons, h1, h2]
  | x :: xs, y :: ys, k + 1, a, b, h1, h2 => by
      simp only [List.get?] at h1 h2
      exact List.mem_cons_of_mem _ (zip_get?_mem xs ys k a b h1 h2)

lemma mem_zip_get? {α β : Type} :
    ∀ (l1 : List α) (l2 : List β) (p : α × β), p ∈ List.zip l1 l2 →
      ∃ k, l1.get? k = some p.1 ∧ l2.get? k = some p.2
  | [], _, p, h => by simp at h
  | _ :: _, [], p, h => by simp [List.zip] at h
  | x :: xs, y :: ys, p, h => by
      rw [List.zip_cons_cons] at h
      rcases List.mem_cons.mp h with h | h
      · exact ⟨0, by simp [h]⟩
      · obtain ⟨k, h1, h2⟩ := mem_zip_get? xs ys p h
        exact ⟨k + 1, by simpa using h1, by simpa using h2⟩

lemma created_mem_blockEntriesListGo (serTx : CTransaction → List Nat) (seed : Nat)
    (g : Bool) (undo : CBlockUndo) (bf bp : Nat) :
    ∀ (txs : List CTransaction) (n off i : Nat) (tx : CTransaction) (j : Nat)
      (out : CTxOut),
      txs.get? i = some tx → tx.vout.get? j = some out →
      (⟨GetAddrId seed out.scriptPubKey, DBKeyType.CREATED, ⟨tx.txid, j⟩⟩,
        (⟨bf, bp, off + ((txs.take i).map (fun t => (serTx t).length)).sum⟩,
          out.scriptPubKey)) ∈
        blockEntriesListGo serTx seed g undo bf bp (List.enumFrom n txs) off := by
  intro txs
  induction txs with
  | nil => intro n off i tx j out h _; simp at h
  | cons t ts ih =>
      intro n off i tx j out hget hout
      cases i with
      | zero =>
          have ht : t = tx := by simpa using hget
          subst ht
          have hj : (j, out) ∈ List.enum t.vout :=
            List.mk_mem_enum_iff_get?.mpr hout
          show _ ∈ blockEntriesListGo serTx seed g undo bf bp
            ((n, t) :: List.enumFrom (n + 1) ts) off
          rw [blockEntriesListGo]
          apply List.mem_append_left
          apply List.mem_append_left
          rw [txCreatedEntries]
          refine List.mem_map.mpr ⟨(j, out), hj, ?_⟩
          simp
      | succ i =>
          have hget2 : ts.get? i = some tx := by simpa using hget
          show _ ∈ blockEntriesListGo serTx seed g undo bf bp
            ((n, t) :: List.enumFrom (n + 1) ts) off
          rw [blockEntriesListGo]
          apply List.mem_append_right
          have := ih (n + 1) (off + (serTx t).length) i tx j out hget2 hout
          have harith : off + (serTx t).length +
              ((ts.take i).map (fun t => (serTx t).length)).sum =
              off + (((t :: ts).take (i + 1)).map (fun t => (serTx t).length)).sum := by
            simp [List.take_succ_cons, Nat.add_assoc]
          rw [harith] at this
          exact this

lemma spent_mem_blockEntriesListGo (serTx : CTransaction → List Nat) (seed : Nat)
    (undo : CBlockUndo) (bf bp : Nat) :
    ∀ (txs : List CTransaction) (n off i : Nat) (tx : CTransaction) (tu : CTxUndo)
      (k : Nat) (txin : CTxIn) (coin : Coin),
      txs.get? i = some tx → 0 < n + i →
      undo.vtxundo.get? (n + i - 1) = some tu →
      tx.vin.get? k = some txin → tu.vprevout.get? k = some coin →
      (⟨GetAddrId seed coin.out.scriptPubKey, DBKeyType.SPENT, txin.prevout⟩,
        (⟨bf, bp, off + ((txs.take i).map (fun t => (serTx t).length)).sum⟩,
          coin.out.scriptPubKey)) ∈
        blockEntriesListGo serTx seed true undo bf bp (List.enumFrom n txs) off := by
  intro txs
  induction txs with
  | nil => intro n off i tx tu k txin coin h _ _ _ _; simp at h
  | cons t ts ih =>
      intro n off i tx tu k txin coin hget hpos hu hin hcoin
      cases i with
      | zero =>
          have ht : t = tx := by simpa using hget
          subst ht
          show _ ∈ blockEntriesListGo serTx seed true undo bf bp
            ((n, t) :: List.enumFrom (n + 1) ts) off
          rw [blockEntriesListGo]
          apply List.mem_append_left
          apply List.mem_append_right
          have hcond : (true = true ∧ 0 < n) := ⟨rfl, by omega⟩
          rw [if_pos hcond]
          have hu0 : undo.vtxundo.get? (n - 1) = some tu := by
            simpa using hu
          rw [hu0]
          simp only [txSpentEntriesList]
          refine List.mem_map.mpr ⟨(txin, coin), zip_get?_mem _ _ k _ _ hin hcoin, ?_⟩
          simp
      | succ i =>
          have hget2 : ts.get? i = some tx := by simpa using hget
          show _ ∈ blockEntriesListGo serTx seed true undo bf bp
            ((n, t) :: List.enumFrom (n + 1) ts) off
          rw [blockEntriesListGo]
          apply List.mem_append_right
          have hpos2 : 0 < (n + 1) + i := by omega
          have hu2 : undo.vtxundo.get? ((n + 1) + i - 1) = some tu := by
            have : (n + 1) + i - 1 = n + (i + 1) - 1 := by omega
            rw [this]
            exact hu
          have := ih (n + 1) (off + (serTx t).length) i tx tu k txin coin hget2
            hpos2 hu2 hin hcoin
          have harith : off + (serTx t).length +
              ((ts.take i).map (fun t => (serTx t).length)).sum =
              off + (((t :: ts).take (i + 1)).map (fun t => (serTx t).length)).sum := by
            simp [List.take_succ_cons, Nat.add_assoc]
          rw [harith] at this
          exact this

lemma mem_blockEntriesListGo_cases (serTx : CTransaction → List Nat) (seed : Nat)
    (g : Bool) (undo : CBlockUndo) (bf bp : Nat) :
    ∀ (txs : List CTransaction) (n off : Nat) (e : DBKey × DBValue),
      e ∈ blockEntriesListGo serTx seed g undo bf bp (List.enumFrom n txs) off →
      ∃ i tx, txs.get? i = some tx ∧
        e.2.1 = ⟨bf, bp, off + ((txs.take i).map (fun t => (serTx t).length)).sum⟩ ∧
        ((∃ j out, tx.vout.get? j = some out ∧
            e = (⟨GetAddrId seed out.scriptPubKey, DBKeyType.CREATED, ⟨tx.txid, j⟩⟩,
              (e.2.1, out.scriptPubKey))) ∨
         (g = true ∧ 0 < n + i ∧
            ∃ tu, undo.vtxundo.get? (n + i - 1) = some tu ∧
            ∃ k txin coin, tx.vin.get? k = some txin ∧
              tu.vprevout.get? k = some coin ∧
              e = (⟨GetAddrId seed coin.out.scriptPubKey, DBKeyType.SPENT,
                txin.prevout⟩, (e.2.1, coin.out.scriptPubKey)))) := by
  intro txs
  induction txs with
  | nil => intro n off e h; simp [blockEntriesListGo] at h
  | cons t ts ih =>
      intro n off e h
      rw [show List.enumFrom n (t :: ts) = (n, t) :: List.enumFrom (n + 1) ts from rfl,
        blockEntriesListGo] at h
      rcases List.mem_append.mp h with h | h
      · rcases List.mem_append.mp h with h | h
        · rw [txCreatedEntries] at h
          obtain ⟨jo, hjo, he⟩ := List.mem_map.mp h
          subst he
          exact ⟨0, t, by simp, by simp,
            Or.inl ⟨jo.1, jo.2, List.mk_mem_enum_iff_get?.mp hjo, by simp⟩⟩
        · by_cases hc : (g = true ∧ 0 < n)
          · rw [if_pos hc] at h
            cases hu : undo.vtxundo.get? (n - 1) with
            | none => rw [hu] at h; simp at h
            | some tu =>
                rw [hu] at h
                simp only [txSpentEntriesList] at h
                obtain ⟨p, hp, he⟩ := List.mem_map.mp h
                obtain ⟨k, hk1, hk2⟩ := mem_zip_get? _ _ p hp
                subst he
                exact ⟨0, t, by simp, by simp,
                  Or.inr ⟨hc.1, by omega, tu, by simpa using hu, k, p.1, p.2,
                    hk1, hk2, by simp⟩⟩
          · rw [if_neg hc] at h
            simp at h
      · obtain ⟨i, tx, hget, hpos, hcase⟩ := ih (n + 1) (off + (serTx t).length) e h
        refine ⟨i + 1, tx, by simpa using hget, ?_, ?_⟩
        · rw [hpos]
          have harith : off + (serTx t).length +
              ((ts.take i).map (fun t => (serTx t).length)).sum =
              off + (((t :: ts).take (i + 1)).map (fun t => (serTx t).length)).sum := by
            simp [List.take_succ_cons, Nat.add_assoc]
          rw [harith]
        · rcases hcase with hcase | hcase
          · exact Or.inl hcase
          · refine Or.inr ⟨hcase.1, by omega, ?_⟩
            obtain ⟨tu, htu, rest⟩ := hcase.2.2
            refine ⟨tu, ?_, rest⟩
            have : n + (i + 1) - 1 = (n + 1) + i - 1 := by omega
            rw [this]
            exact htu

lemma index_eq_of_txid (txs : List CTransaction)
    (hnd : (txs.map (fun t => t.txid)).Nodup) (i1 i2 : Nat)
    (tx1 tx2 : CTransaction) (h1 : txs.get? i1 = some tx1)
    (h2 : txs.get? i2 = some tx2) (h : tx1.txid = tx2.txid) : i1 = i2 := by
  have hm1 : (txs.map (fun t => t.txid))[i1]? = some tx1.txid := by
    rw [List.getElem?_map, ← List.get?_eq_getElem?, h1]
    rfl
  have hm2 : (txs.map (fun t => t.txid))[i2]? = some tx2.txid := by
    rw [List.getElem?_map, ← List.get?_eq_getElem?, h2]
    rfl
  have hlen : i1 < (txs.map (fun t => t.txid)).length := by
    obtain ⟨hl, _⟩ := List.get?_eq_some.mp h1
    simpa using hl
  exact List.getElem?_inj hlen hnd (by rw [hm1, hm2, h])

lemma blockEntriesListGo_key_bounds (serTx : CTransaction → List Nat) (seed : Nat)
    (g : Bool) (undo : CBlockUndo) (bf bp : Nat) (txs : List CTransaction)
    (n off : Nat)
    (hhash : ∀ tx ∈ txs, tx.txid < 2 ^ 256)
    (hvout : ∀ tx ∈ txs, tx.vout.length ≤ 2 ^ 32)
    (hprev : ∀ tx ∈ txs, ∀ txin ∈ tx.vin,
      txin.prevout.hash < 2 ^ 256 ∧ txin.prevout.n < 2 ^ 32) :
    ∀ b ∈ blockEntriesListGo serTx seed g undo bf bp (List.enumFrom n txs) off,
      b.1.m_addr_id < 2 ^ 32 ∧ b.1.m_outpoint.hash < 2 ^ 256 ∧
        b.1.m_outpoint.n < 2 ^ 32 := by
  intro b hb
  obtain ⟨i, tx, hget, _, hcase⟩ :=
    mem_blockEntriesListGo_cases serTx seed g undo bf bp txs n off b hb
  have htx : tx ∈ txs := List.get?_mem hget
  rcases hcase with ⟨j, out, hout, he⟩ | ⟨_, _, tu, _, k, txin, coin, hin, _, he⟩
  · rw [he]
    refine ⟨GetAddrId_lt _ _, hhash tx htx, ?_⟩
    obtain ⟨hj, _⟩ := List.get?_eq_some.mp hout
    exact Nat.lt_of_lt_of_le hj (hvout tx htx)
  · rw [he]
    have := hprev tx htx txin (List.get?_mem hin)
    exact ⟨GetAddrId_lt _ _, this.1, this.2⟩

lemma dbCount_eq_one_of_get (db : Db) (hs : DbSorted db) (k : DBKey)
    (v : DBValue) (h : dbGet db k = some v) : dbCount db k = 1 := by
  have hle := dbCount_le_one k db hs
  rw [dbGet] at h
  cases hf : List.find? (fun e => serDBKey e.1 = serDBKey k) db with
  | none => rw [hf] at h; simp at h
  | some f =>
      have hmem := List.mem_of_find?_eq_some hf
      have hpred := List.find?_some hf
      have hpos : 0 < dbCount db k := by
        rw [dbCount]
        exact List.countP_pos.mpr ⟨f, hmem, hpred⟩
      omega

/-! ### C3: exactly one entry per output and per non-coinbase input -/

/-- C3.  After WriteBlock succeeds on a non-genesis block (with its undo
record mirroring the block and the usual validity assumptions — distinct
txids, no output spent twice inside the block, 32/256-bit field bounds):
for every output (T, j) exactly one CREATED entry exists in the database,
keyed by (AddrId(scriptPubKey), CREATED, (T.txid, j)) and valued by T's
disk position and the script; for every input k of every non-coinbase
transaction exactly one SPENT entry exists, keyed by the undo script's
AddrId and the spent prevout, valued by the spending transaction's position
and that script; and every SPENT entry of the batch stems from a
non-coinbase transaction's input — the coinbase produces none. -/
theorem c3_writeBlock_exact_entries (serTx : CTransaction → List Nat) (seed : Nat)
    (block : CBlock) (undo : CBlockUndo) (db : Db) (bf bp nHeight : Nat)
    (hpos : 0 < nHeight)
    (hsorted : DbSorted db)
    (hnd : (block.vtx.map (fun t => t.txid)).Nodup)
    (hhash : ∀ tx ∈ block.vtx, tx.txid < 2 ^ 256)
    (hvout : ∀ tx ∈ block.vtx, tx.vout.length ≤ 2 ^ 32)
    (hprev : ∀ tx ∈ block.vtx, ∀ txin ∈ tx.vin,
      txin.prevout.hash < 2 ^ 256 ∧ txin.prevout.n < 2 ^ 32)
    (hmirror : undo.vtxundo.length = block.vtx.length - 1)
    (hshape : ∀ i tx tu, block.vtx.get? i = some tx →
      undo.vtxundo.get? (i - 1) = some tu → 0 < i →
      tu.vprevout.length = tx.vin.length)
    (hdouble : ∀ i1 tx1 k1 in1 i2 tx2 k2 in2,
      block.vtx.get? i1 = some tx1 → 0 < i1 → tx1.vin.get? k1 = some in1 →
      block.vtx.get? i2 = some tx2 → 0 < i2 → tx2.vin.get? k2 = some in2 →
      in1.prevout = in2.prevout → i1 = i2 ∧ k1 = k2) :
    WriteBlock serTx seed db block (some undo) bf bp nHeight =
      some (true, WriteToIndex db (blockEntriesList serTx seed block undo bf bp nHeight)) ∧
    (∀ i tx, block.vtx.get? i = some tx → ∀ j out, tx.vout.get? j = some out →
      dbGet (WriteToIndex db (blockEntriesList serTx seed block undo bf bp nHeight))
          ⟨GetAddrId seed out.scriptPubKey, DBKeyType.CREATED, ⟨tx.txid, j⟩⟩ =
        some (⟨bf, bp, GetSizeOfCompactSize block.vtx.length +
            ((block.vtx.take i).map (fun t => (serTx t).length)).sum⟩,
          out.scriptPubKey) ∧
      dbCount (WriteToIndex db (blockEntriesList serTx seed block undo bf bp nHeight))
          ⟨GetAddrId seed out.scriptPubKey, DBKeyType.CREATED, ⟨tx.txid, j⟩⟩ = 1) ∧
    (∀ i tx, block.vtx.get? i = some tx → 0 < i →
      ∀ k txin, tx.vin.get? k = some txin →
      ∀ tu, undo.vtxundo.get? (i - 1) = some tu →
      ∀ coin, tu.vprevout.get? k = some coin →
      dbGet (WriteToIndex db (blockEntriesList serTx seed block undo bf bp nHeight))
          ⟨GetAddrId seed coin.out.scriptPubKey, DBKeyType.SPENT, txin.prevout⟩ =
        some (⟨bf, bp, GetSizeOfCompactSize block.vtx.length +
            ((block.vtx.take i).map (fun t => (serTx t).length)).sum⟩,
          coin.out.scriptPubKey) ∧
      dbCount (WriteToIndex db (blockEntriesList serTx seed block undo bf bp nHeight))
          ⟨GetAddrId seed coin.out.scriptPubKey, DBKeyType.SPENT, txin.prevout⟩ = 1) ∧
    (∀ e ∈ blockEntriesList serTx seed block undo bf bp nHeight,
      e.1.m_key_type = DBKeyType.SPENT →
      ∃ i tx txin, block.vtx.get? i = some tx ∧ 0 < i ∧ txin ∈ tx.vin ∧
        e.1.m_outpoint = txin.prevout) := by
  have hg : (decide (0 < nHeight)) = true := by simpa using hpos
  have hles : blockEntriesList serTx seed block undo bf bp nHeight =
      blockEntriesListGo serTx seed true undo bf bp (List.enumFrom 0 block.vtx)
        (GetSizeOfCompactSize block.vtx.length) := by
    rw [blockEntriesList, hg]
    rfl
  refine ⟨?_, ?_, ?_, ?_⟩
  · rw [WriteBlock]
    have hnone : ¬(0 < nHeight ∧ (some undo : Option CBlockUndo) = none) := by simp
    rw [if_neg hnone]
    rw [show (some undo).getD (⟨[]⟩ : CBlockUndo) = undo from rfl]
    rw [blockEntries_eq_some_of_mirror serTx seed block undo bf bp nHeight hmirror hshape]
  · intro i tx hget j out hout
    have htxmem : tx ∈ block.vtx := List.get?_mem hget
    have hmemt : ((⟨GetAddrId seed out.scriptPubKey, DBKeyType.CREATED,
        ⟨tx.txid, j⟩⟩ : DBKey),
        ((⟨bf, bp, GetSizeOfCompactSize block.vtx.length +
          ((block.vtx.take i).map (fun t => (serTx t).length)).sum⟩ : CDiskTxPos),
         out.scriptPubKey)) ∈
        blockEntriesList serTx seed block undo bf bp nHeight := by
      rw [hles]
      exact created_mem_blockEntriesListGo serTx seed true undo bf bp block.vtx 0
        (GetSizeOfCompactSize block.vtx.length) i tx j out hget hout
    have hKb : GetAddrId seed out.scriptPubKey < 2 ^ 32 ∧ tx.txid < 2 ^ 256 ∧
        j < 2 ^ 32 := by
      refine ⟨GetAddrId_lt _ _, hhash tx htxmem, ?_⟩
      obtain ⟨hj, _⟩ := List.get?_eq_some.mp hout
      exact Nat.lt_of_lt_of_le hj (hvout tx htxmem)
    have huniq : ∀ b ∈ blockEntriesList serTx seed block undo bf bp nHeight,
        serDBKey b.1 = serDBKey ⟨GetAddrId seed out.scriptPubKey,
          DBKeyType.CREATED, ⟨tx.txid, j⟩⟩ →
        b = (⟨GetAddrId seed out.scriptPubKey, DBKeyType.CREATED, ⟨tx.txid, j⟩⟩,
          (⟨bf, bp, GetSizeOfCompactSize block.vtx.length +
            ((block.vtx.take i).map (fun t => (serTx t).length)).sum⟩,
           out.scriptPubKey)) := by
      intro b hb hkey
      rw [hles] at hb
      have hbb := blockEntriesListGo_key_bounds serTx seed true undo bf bp
        block.vtx 0 _ hhash hvout hprev b hb
      have hbK : b.1 = ⟨GetAddrId seed out.scriptPubKey, DBKeyType.CREATED,
          ⟨tx.txid, j⟩⟩ :=
        serDBKey_inj b.1 _ hbb.1 hKb.1 hbb.2.1 hKb.2.1 hbb.2.2 hKb.2.2 hkey
      obtain ⟨i2, tx2, hget2, hpos2, hcase⟩ :=
        mem_blockEntriesListGo_cases serTx seed true undo bf bp block.vtx 0 _ b hb
      rcases hcase with ⟨j2, out2, hout2, he⟩ |
        ⟨_, _, tu2, _, k2, in2, coin2, _, _, he⟩
      · have hk1 : b.1 = ⟨GetAddrId seed out2.scriptPubKey, DBKeyType.CREATED,
            ⟨tx2.txid, j2⟩⟩ := by rw [he]
        rw [hbK] at hk1
        have htxid : tx.txid = tx2.txid := by
          have := congrArg (fun q => q.m_outpoint.hash) hk1
          simpa using this
        have hj2 : j = j2 := by
          have := congrArg (fun q => q.m_outpoint.n) hk1
          simpa using this
        have hi : i = i2 := index_eq_of_txid block.vtx hnd i i2 tx tx2 hget hget2 htxid
        subst hi
        subst hj2
        have htx2 : tx2 = tx := by
          rw [hget] at hget2
          exact (Option.some_inj.mp hget2).symm
        subst htx2
        have hout2e : out2 = out := by
          rw [hout] at hout2
          exact (Option.some_inj.mp hout2).symm
        subst hout2e
        rw [he, hpos2]
      · exfalso
        have hk1 : b.1.m_key_type = DBKeyType.SPENT := by rw [he]
        rw [hbK] at hk1
        simp at hk1
    have hfind : (blockEntriesList serTx seed block undo bf bp nHeight).reverse.find?
        (fun f => serDBKey f.1 = serDBKey ⟨GetAddrId seed out.scriptPubKey,
          DBKeyType.CREATED, ⟨tx.txid, j⟩⟩) =
        some (⟨GetAddrId seed out.scriptPubKey, DBKeyType.CREATED, ⟨tx.txid, j⟩⟩,
          (⟨bf, bp, GetSizeOfCompactSize block.vtx.length +
            ((block.vtx.take i).map (fun t => (serTx t).length)).sum⟩,
           out.scriptPubKey)) := by
      apply find?_eq_of_unique _ _ _ (List.mem_reverse.mpr hmemt) (by simp)
      intro b hb hpb
      exact huniq b (List.mem_reverse.mp hb) (by simpa using hpb)
    constructor
    · rw [dbGet_WriteToIndex, hfind]
    · apply dbCount_eq_one_of_get _ (WriteToIndex_sorted _ db hsorted)
      rw [dbGet_WriteToIndex, hfind]
  · intro i tx hget hi k txin hk tu htu coin hcoin
    have htxmem : tx ∈ block.vtx := List.get?_mem hget
    have hinmem : txin ∈ tx.vin := List.get?_mem hk
    have hmemt : ((⟨GetAddrId seed coin.out.scriptPubKey, DBKeyType.SPENT,
        txin.prevout⟩ : DBKey),
        ((⟨bf, bp, GetSizeOfCompactSize block.vtx.length +
          ((block.vtx.take i).map (fun t => (serTx t).length)).sum⟩ : CDiskTxPos),
         coin.out.scriptPubKey)) ∈
        blockEntriesList serTx seed block undo bf bp nHeight := by
      rw [hles]
      exact spent_mem_blockEntriesListGo serTx seed undo bf bp block.vtx 0
        (GetSizeOfCompactSize block.vtx.length) i tx tu k txin coin hget
        (by omega) (by simpa using htu) hk hcoin
    have hKb : GetAddrId seed coin.out.scriptPubKey < 2 ^ 32 ∧
        txin.prevout.hash < 2 ^ 256 ∧ txin.prevout.n < 2 ^ 32 := by
      have := hprev tx htxmem txin hinmem
      exact ⟨GetAddrId_lt _ _, this.1, this.2⟩
    have huniq : ∀ b ∈ blockEntriesList serTx seed block undo bf bp nHeight,
        serDBKey b.1 = serDBKey ⟨GetAddrId seed coin.out.scriptPubKey,
          DBKeyType.SPENT, txin.prevout⟩ →
        b = (⟨GetAddrId seed coin.out.scriptPubKey, DBKeyType.SPENT, txin.prevout⟩,
          (⟨bf, bp, GetSizeOfCompactSize block.vtx.length +
            ((block.vtx.take i).map (fun t => (serTx t).length)).sum⟩,
           coin.out.scriptPubKey)) := by
      intro b hb hkey
      rw [hles] at hb
      have hbb := blockEntriesListGo_key_bounds serTx seed true undo bf bp
        block.vtx 0 _ hhash hvout hprev b hb
      have hbK : b.1 = ⟨GetAddrId seed coin.out.scriptPubKey, DBKeyType.SPENT,
          txin.prevout⟩ :=
        serDBKey_inj b.1 _ hbb.1 hKb.1 hbb.2.1 hKb.2.1 hbb.2.2 hKb.2.2 hkey
      obtain ⟨i2, tx2, hget2, hpos2, hcase⟩ :=
        mem_blockEntriesListGo_cases serTx seed true undo bf bp block.vtx 0 _ b hb
      rcases hcase with ⟨j2, out2, hout2, he⟩ |
        ⟨_, hi2, tu2, htu2, k2, in2, coin2, hin2, hcoin2, he⟩
      · exfalso
        have hk1 : b.1.m_key_type = DBKeyType.CREATED := by rw [he]
        rw [hbK] at hk1
        simp at hk1
      · have hk1 : b.1 = ⟨GetAddrId seed coin2.out.scriptPubKey, DBKeyType.SPENT,
            in2.prevout⟩ := by rw [he]
        rw [hbK] at hk1
        have hprevout : txin.prevout = in2.prevout := by
          have := congrArg (fun q => q.m_outpoint) hk1
          simpa using this
        have hi2pos : 0 < i2 := by simpa using hi2
        obtain ⟨hii, hkk⟩ := hdouble i tx k txin i2 tx2 k2 in2 hget hi hk hget2
          hi2pos hin2 hprevout
        subst hii
        subst hkk
        have htx2 : tx2 = tx := by
          rw [hget] at hget2
          exact (Option.some_inj.mp hget2).symm
        subst htx2
        have htu2e : tu2 = tu := by
          rw [show (0 : Nat) + i - 1 = i - 1 by omega] at htu2
          rw [htu] at htu2
          exact (Option.some_inj.mp htu2).symm
        subst htu2e
        have hin2e : in2 = txin := by
          rw [hk] at hin2
          exact (Option.some_inj.mp hin2).symm
        subst hin2e
        have hcoin2e : coin2 = coin := by
          rw [hcoin] at hcoin2
          exact (Option.some_inj.mp hcoin2).symm
        subst hcoin2e
        rw [he, hpos2]
    have hfind : (blockEntriesList serTx seed block undo bf bp nHeight).reverse.find?
        (fun f => serDBKey f.1 = serDBKey ⟨GetAddrId seed coin.out.scriptPubKey,
          DBKeyType.SPENT, txin.prevout⟩) =
        some (⟨GetAddrId seed coin.out.scriptPubKey, DBKeyType.SPENT, txin.prevout⟩,
          (⟨bf, bp, GetSizeOfCompactSize block.vtx.length +
            ((block.vtx.take i).map (fun t => (serTx t).length)).sum⟩,
           coin.out.scriptPubKey)) := by
      apply find?_eq_of_unique _ _ _ (List.mem_reverse.mpr hmemt) (by simp)
      intro b hb hpb
      exact huniq b (List.mem_reverse.mp hb) (by simpa using hpb)
    constructor
    · rw [dbGet_WriteToIndex, hfind]
    · apply dbCount_eq_one_of_get _ (WriteToIndex_sorted _ db hsorted)
      rw [dbGet_WriteToIndex, hfind]
  · intro e he hkind
    rw [hles] at he
    obtain ⟨i, tx, hget, _, hcase⟩ :=
      mem_blockEntriesListGo_cases serTx seed true undo bf bp block.vtx 0 _ e he
    rcases hcase with ⟨j, out, hout, hee⟩ |
      ⟨_, hi, tu, htu, k, txin, coin, hin, hcoin, hee⟩
    · exfalso
      have : e.1.m_key_type = DBKeyType.CREATED := by rw [hee]
      rw [hkind] at this
      simp at this
    · refine ⟨i, tx, txin, hget, by simpa using hi, List.get?_mem hin, ?_⟩
      rw [hee]

/-- Witness for C3 at the concrete two-transaction block: the CREATED entry
of spendTx's output and the SPENT entry of the coinbase output it consumes,
each present with the expected position and script. -/
theorem c3_writeBlock_exact_entries_witness :
    dbGet (WriteToIndex [] (blockEntriesList serTxOne 0 testBlock testUndo 0 0 1))
        ⟨GetAddrId 0 [2], DBKeyType.CREATED, ⟨2, 0⟩⟩ =
      some (⟨0, 0, 2⟩, [2]) ∧
    dbGet (WriteToIndex [] (blockEntriesList serTxOne 0 testBlock testUndo 0 0 1))
        ⟨GetAddrId 0 [1], DBKeyType.SPENT, ⟨1, 0⟩⟩ =
      some (⟨0, 0, 2⟩, [1]) := by
  have h := c3_writeBlock_exact_entries serTxOne 0 testBlock testUndo [] 0 0 1
    (by decide) List.chain'_nil (by decide) (by decide) (by decide) (by decide)
    (by decide)
    (by
      intro i tx tu hget htu hi
      match i, hi with
      | 1, _ =>
          simp [testBlock, cbTx, spendTx] at hget
          simp [testUndo] at htu
          rw [← hget, ← htu]
          decide
      | n + 2, _ =>
          simp [testBlock, cbTx, spendTx] at hget)
    (by
      intro i1 tx1 k1 in1 i2 tx2 k2 in2 h1 hp1 hk1 h2 hp2 hk2 _
      match i1, hp1 with
      | 1, _ =>
          match i2, hp2 with
          | 1, _ =>
              refine ⟨rfl, ?_⟩
              simp [testBlock, cbTx, spendTx] at h1 h2
              rw [← h1] at hk1
              rw [← h2] at hk2
              match k1 with
              | 0 =>
                  match k2 with
                  | 0 => rfl
                  | m + 1 => simp [spendTx] at hk2
              | m + 1 => simp [spendTx] at hk1
          | m + 2, _ => simp [testBlock, cbTx, spendTx] at h2
      | m + 2, _ => simp [testBlock, cbTx, spendTx] at h1)
  constructor
  · exact (h.2.1 1 spendTx rfl 0 ⟨[2]⟩ rfl).1
  · exact (h.2.2.1 1 spendTx rfl (by decide) 0 ⟨⟨1, 0⟩⟩ rfl ⟨[⟨⟨[1]⟩⟩]⟩ rfl
      ⟨⟨[1]⟩⟩ rfl).1

/-! ### C2: disconnecting a block removes everything it contributed -/

lemma not_mem_dbInsert_same_key (e f : DBKey × DBValue) (hne : f ≠ e)
    (hkey : serDBKey f.1 = serDBKey e.1) :
    ∀ (db : Db), DbSorted db → f ∉ dbInsert db e := by
  intro db
  induction db with
  | nil =>
      intro _ h
      rw [dbInsert_nil] at h
      exact hne (by simpa using h)
  | cons h t ih =>
      intro hs hf
      rw [dbInsert_cons] at hf
      by_cases h1 : serDBKey e.1 = serDBKey h.1
      · rw [if_pos h1] at hf
        rcases List.mem_cons.mp hf with hc | hc
        · exact hne hc
        · have hlt := chain_head_lexLt t h hs f hc
          rw [show serDBKey h.1 = serDBKey f.1 from h1.symm.trans hkey.symm] at hlt
          rw [lexLt_irrefl] at hlt
          exact Bool.false_ne_true hlt
      · rw [if_neg h1] at hf
        by_cases h2 : lexLt (serDBKey e.1) (serDBKey h.1) = true
        · rw [if_pos h2] at hf
          rcases List.mem_cons.mp hf with hc | hc
          · exact hne hc
          · rcases List.mem_cons.mp hc with hc | hc
            · rw [hc] at hkey
              rw [← hkey] at h2
              rw [lexLt_irrefl] at h2
              exact Bool.false_ne_true h2
            · have hlt := chain_head_lexLt t h hs f hc
              have : lexLt (serDBKey e.1) (serDBKey f.1) = true := lexLt_trans h2 hlt
              rw [← hkey] at this
              rw [lexLt_irrefl] at this
              exact Bool.false_ne_true this
        · rw [if_neg h2] at hf
          rcases List.mem_cons.mp hf with hc | hc
          · rw [hc] at hkey
            exact h1 (hkey.symm)
          · exact ih (List.chain'_cons'.mp hs).2 hc

/-- Membership in a batch-written store: an entry either comes from the
batch, or was already stored and its key collides with no batch key (a
collision would have been overwritten). -/
lemma mem_WriteToIndex_strong (es : List (DBKey × DBValue)) :
    ∀ (db : Db), DbSorted db → ∀ f ∈ WriteToIndex db es,
      f ∈ es ∨ (f ∈ db ∧ ∀ g ∈ es, serDBKey g.1 ≠ serDBKey f.1) := by
  induction es with
  | nil => intro db _ f hf; exact Or.inr ⟨hf, by simp⟩
  | cons e es ih =>
      intro db hs f hf
      rcases ih (dbInsert db e) (dbInsert_sorted e db hs) f hf with h | ⟨hmem, hkeys⟩
      · exact Or.inl (List.mem_cons_of_mem _ h)
      · by_cases hfe : f = e
        · exact Or.inl (hfe ▸ List.mem_cons_self _ _)
        · by_cases hkey : serDBKey f.1 = serDBKey e.1
          · exact absurd hmem (not_mem_dbInsert_same_key e f hfe hkey db hs)
          · rcases mem_dbInsert db e f hmem with h | h
            · exact absurd h hfe
            · refine Or.inr ⟨h, fun g hg => ?_⟩
              rcases List.mem_cons.mp hg with hge | hge
              · rw [hge]
                exact fun hh => hkey hh.symm
              · exact hkeys g hge

lemma readLoop_subset (a : Nat) (s : Script) :
    ∀ (fuel : Nat) (it : Db) (acc r : List (DBKey × DBValue)),
      readLoop a s fuel it acc = some r → ∀ e ∈ r, e ∈ acc ∨ e ∈ it := by
  intro fuel
  induction fuel with
  | zero => intro it acc r h; simp [readLoop] at h
  | succ n ih =>
      intro it acc r h e her
      match it with
      | [] =>
          have : acc = r := by simpa [readLoop] using h
          exact Or.inl (this ▸ her)
      | (key, value) :: rest =>
          rw [readLoop] at h
          by_cases h1 : key.m_addr_id ≠ a
          · rw [if_pos h1] at h
            have : acc = r := by simpa using h
            exact Or.inl (this ▸ her)
          · rw [if_neg h1] at h
            by_cases h2 : value.2 ≠ s
            · rw [if_pos h2] at h
              rcases ih _ _ _ h e her with hr | hr
              · exact Or.inl hr
              · exact Or.inr hr
            · rw [if_neg h2] at h
              rcases ih _ _ _ h e her with hr | hr
              · rcases List.mem_append.mp hr with hr | hr
                · exact Or.inl hr
                · have : e = (key, value) := by simpa using hr
                  exact Or.inr (this ▸ List.mem_cons_self _ _)
              · exact Or.inr (List.mem_cons_of_mem _ hr)

lemma blockEntriesList_eq_go (serTx : CTransaction → List Nat) (seed : Nat)
    (block : CBlock) (undo : CBlockUndo) (bf bp nHeight : Nat) :
    blockEntriesList serTx seed block undo bf bp nHeight =
      blockEntriesListGo serTx seed (decide (0 < nHeight)) undo bf bp
        (List.enumFrom 0 block.vtx) (GetSizeOfCompactSize block.vtx.length) := rfl

/-- Every entry a block's connect contributes carries the block's file and
offset in its stored position. -/
lemma blockEntriesList_posInBlock (serTx : CTransaction → List Nat) (seed : Nat)
    (block : CBlock) (undo : CBlockUndo) (bf bp nHeight : Nat) :
    ∀ e ∈ blockEntriesList serTx seed block undo bf bp nHeight,
      e.2.1.nFile = bf ∧ e.2.1.nPos = bp := by
  intro e he
  rw [blockEntriesList_eq_go] at he
  obtain ⟨i, tx, _, hpos, _⟩ := mem_blockEntriesListGo_cases serTx seed _ undo bf bp
    block.vtx 0 _ e he
  rw [hpos]
  exact ⟨rfl, rfl⟩

set_option maxHeartbeats 2000000 in
/-- Every entry a block's connect contributes has its AddrId among the
candidate AddrIds the disconnect derives (outputs directly; inputs through
the CoinsView collaborator, assumed to agree with the undo data). -/
lemma blockEntriesList_addrId_mem_candidates (serTx : CTransaction → List Nat)
    (seed : Nat) (coinsView : COutPoint → Option Script) (block : CBlock)
    (undo : CBlockUndo) (bf bp nHeight : Nat)
    (hcoins : ∀ i tx, block.vtx.get? i = some tx → 0 < i →
      ∀ k txin tu coin, tx.vin.get? k = some txin →
        undo.vtxundo.get? (i - 1) = some tu → tu.vprevout.get? k = some coin →
        coinsView txin.prevout = some coin.out.scriptPubKey) :
    ∀ e ∈ blockEntriesList serTx seed block undo bf bp nHeight,
      e.1.m_addr_id ∈ blockCandidateAddrIds coinsView seed block := by
  intro e he
  rw [blockEntriesList_eq_go] at he
  obtain ⟨i, tx, hget, _, hcase⟩ := mem_blockEntriesListGo_cases serTx seed _ undo
    bf bp block.vtx 0 _ e he
  rcases hcase with ⟨j, out, hout, hee⟩ |
    ⟨_, hi, tu, htu, k, txin, coin, hin, hcoin, hee⟩
  · have haddr : e.1.m_addr_id = GetAddrId seed out.scriptPubKey := by rw [hee]
    rw [blockCandidateAddrIds, List.mem_dedup, List.mem_append]
    left
    simp only [List.mem_flatten, List.mem_map]
    refine ⟨tx.vout.map (fun o => GetAddrId seed o.scriptPubKey), ?_, ?_⟩
    · exact ⟨tx, List.get?_mem hget, rfl⟩
    · exact List.mem_map.mpr ⟨out, List.get?_mem hout, haddr.symm⟩
  · have haddr : e.1.m_addr_id = GetAddrId seed coin.out.scriptPubKey := by rw [hee]
    have hipos : 0 < i := by simpa using hi
    have hcv : coinsView txin.prevout = some coin.out.scriptPubKey :=
      hcoins i tx hget hipos k txin tu coin hin (by simpa using htu) hcoin
    rw [blockCandidateAddrIds, List.mem_dedup, List.mem_append]
    right
    simp only [List.mem_flatten, List.mem_map]
    refine ⟨tx.vin.filterMap (fun txin => (coinsView txin.prevout).map (GetAddrId seed)),
      ?_, ?_⟩
    · refine ⟨(i, tx), ?_, ?_⟩
      · rw [show List.enum block.vtx = List.enumFrom 0 block.vtx from rfl]
        exact List.mk_mem_enum_iff_get?.mpr hget
      · show (if 0 < i then
            tx.vin.filterMap (fun txin => (coinsView txin.prevout).map (GetAddrId seed))
          else []) =
          tx.vin.filterMap (fun txin => (coinsView txin.prevout).map (GetAddrId seed))
        rw [if_pos hipos]
    · rw [haddr]
      exact List.mem_filterMap.mpr ⟨txin, List.get?_mem hin, by rw [hcv]; rfl⟩

/-- C2.  After a block whose entries were connected is disconnected, every
entry the connect contributed is physically gone: a point lookup of any
batch key returns nothing, every surviving store entry lies outside the
block's disk location (given the pre-block store held none inside it), and
consequently no prefix scan returns an entry positioned in the block.  The
disconnect path itself is modelled from the spec (§4.C disconnect_block),
as only its declaration exists under src/; `hcoins` states the spec's
assumption that the CoinsView recovers the same prior-output scripts the
undo data carried at connect time. -/
theorem c2_disconnect_block_erases (serTx : CTransaction → List Nat) (seed : Nat)
    (coinsView : COutPoint → Option Script) (block : CBlock) (undo : CBlockUndo)
    (db : Db) (bf bp nHeight : Nat)
    (hsorted : DbSorted db)
    (hclean : ∀ e ∈ db, ¬(e.2.1.nFile = bf ∧ e.2.1.nPos = bp))
    (hcoins : ∀ i tx, block.vtx.get? i = some tx → 0 < i →
      ∀ k txin tu coin, tx.vin.get? k = some txin →
        undo.vtxundo.get? (i - 1) = some tu → tu.vprevout.get? k = some coin →
        coinsView txin.prevout = some coin.out.scriptPubKey) :
    (∀ e ∈ blockEntriesList serTx seed block undo bf bp nHeight,
      dbGet (DisconnectBlock coinsView seed
        (WriteToIndex db (blockEntriesList serTx seed block undo bf bp nHeight))
        block bf bp) e.1 = none) ∧
    (∀ f ∈ DisconnectBlock coinsView seed
        (WriteToIndex db (blockEntriesList serTx seed block undo bf bp nHeight))
        block bf bp, ¬(f.2.1.nFile = bf ∧ f.2.1.nPos = bp)) ∧
    (∀ a s fuel r, ReadAddrIndex fuel (DisconnectBlock coinsView seed
        (WriteToIndex db (blockEntriesList serTx seed block undo bf bp nHeight))
        block bf bp) a s = some r →
      ∀ f ∈ r, ¬(f.2.1.nFile = bf ∧ f.2.1.nPos = bp)) := by
  have hdel : ∀ f ∈ blockEntriesList serTx seed block undo bf bp nHeight,
      (!((blockCandidateAddrIds coinsView seed block).contains f.1.m_addr_id &&
        (f.2.1.nFile == bf) && (f.2.1.nPos == bp))) = false := by
    intro f hf
    have h1 := blockEntriesList_posInBlock serTx seed block undo bf bp nHeight f hf
    have h2 := blockEntriesList_addrId_mem_candidates serTx seed coinsView block
      undo bf bp nHeight hcoins f hf
    simp [h1.1, h1.2, h2]
  have hpart2 : ∀ f ∈ DisconnectBlock coinsView seed
      (WriteToIndex db (blockEntriesList serTx seed block undo bf bp nHeight))
      block bf bp, ¬(f.2.1.nFile = bf ∧ f.2.1.nPos = bp) := by
    intro f hfm
    have hmf := List.mem_filter.mp (by simpa only [DisconnectBlock] using hfm)
    rcases mem_WriteToIndex_strong _ db hsorted f hmf.1 with hin | ⟨hindb, _⟩
    · have hfalse := hdel f hin
      have h2 := hmf.2
      rw [hfalse] at h2
      exact absurd h2 (by simp)
    · exact hclean f hindb
  refine ⟨?_, hpart2, ?_⟩
  · intro e he
    rw [dbGet]
    cases hf : List.find? (fun x => serDBKey x.1 = serDBKey e.1)
        (DisconnectBlock coinsView seed
          (WriteToIndex db (blockEntriesList serTx seed block undo bf bp nHeight))
          block bf bp) with
    | none => rfl
    | some fpair =>
        exfalso
        have hmem2 := List.mem_of_find?_eq_some hf
        have hkey : serDBKey fpair.1 = serDBKey e.1 := by
          simpa using List.find?_some hf
        have hmf := List.mem_filter.mp (by simpa only [DisconnectBlock] using hmem2)
        rcases mem_WriteToIndex_strong _ db hsorted fpair hmf.1 with hin | ⟨_, hkeys⟩
        · have hfalse := hdel fpair hin
          have h2 := hmf.2
          rw [hfalse] at h2
          exact absurd h2 (by simp)
        · exact hkeys e he hkey.symm
  · intro a s fuel r hr f hfr
    rcases readLoop_subset a s fuel _ [] r hr f hfr with h | h
    · simp at h
    · exact hpart2 f (List.dropWhile_subset _ h)

/-- Witness for C2 at the concrete block: after connect then disconnect on
an initially empty store, the lookup of the CREATED key of spendTx's output
finds nothing. -/
theorem c2_disconnect_block_erases_witness :
    dbGet (DisconnectBlock
        (fun o => if o = (⟨1, 0⟩ : COutPoint) then some ([1] : Script) else none) 0
        (WriteToIndex [] (blockEntriesList serTxOne 0 testBlock testUndo 0 0 1))
        testBlock 0 0)
      ⟨GetAddrId 0 [2], DBKeyType.CREATED, ⟨2, 0⟩⟩ = none := by
  have h := c2_disconnect_block_erases serTxOne 0
    (fun o => if o = (⟨1, 0⟩ : COutPoint) then some ([1] : Script) else none)
    testBlock testUndo [] 0 0 1 List.chain'_nil (by simp)
    (by
      intro i tx hget hi k txin tu coin hk htu hcoin
      match i, hi with
      | 1, _ =>
          simp [testBlock, cbTx, spendTx] at hget
          simp [testUndo] at htu
          rw [← hget] at hk
          rw [← htu] at hcoin
          match k with
          | 0 =>
              simp [spendTx] at hk
              simp at hcoin
              rw [← hk, ← hcoin]
              decide
          | m + 1 => simp [spendTx] at hk
      | m + 2, _ => simp [testBlock, cbTx, spendTx] at hget)
  exact h.1 (⟨GetAddrId 0 [2], DBKeyType.CREATED, ⟨2, 0⟩⟩, (⟨0, 0, 2⟩, [2]))
    (by decide)

/-! ### C7: the connect/lookup round trip -/

/-- One iteration of the scan loop on a matching entry: the entry is
appended to the accumulator and the iterator advances. -/
lemma readLoop_step_match (a : Nat) (s : Script) (k : DBKey) (v : DBValue)
    (rest : Db) (acc : List (DBKey × DBValue)) (fuel : Nat)
    (h1 : k.m_addr_id = a) (h2 : v.2 = s) :
    readLoop a s (fuel + 1) ((k, v) :: rest) acc =
      readLoop a s fuel rest (acc ++ [(k, v)]) := by
  simp [readLoop, h1, h2]

lemma dbInsert_length (e : DBKey × DBValue) :
    ∀ (db : Db), (dbInsert db e).length ≤ db.length + 1 := by
  intro db
  induction db with
  | nil => rw [dbInsert_nil]; simp
  | cons f rest ih =>
      rw [dbInsert_cons]
      by_cases h1 : serDBKey e.1 = serDBKey f.1
      · rw [if_pos h1]; simp
      · rw [if_neg h1]
        by_cases h2 : lexLt (serDBKey e.1) (serDBKey f.1) = true
        · rw [if_pos h2]; simp
        · rw [if_neg h2]
          simp only [List.length_cons]
          omega

lemma WriteToIndex_length (es : List (DBKey × DBValue)) :
    ∀ (db : Db), (WriteToIndex db es).length ≤ db.length + es.length := by
  induction es with
  | nil => intro db; simp [WriteToIndex]
  | cons e es ih =>
      intro db
      have h1 := ih (dbInsert db e)
      have h2 := dbInsert_length e db
      have hstep : WriteToIndex db (e :: es) = WriteToIndex (dbInsert db e) es := rfl
      rw [hstep]
      simp only [List.length_cons]
      omega

lemma DbSorted_dbSeek (t : List Nat) :
    ∀ (db : Db), DbSorted db → DbSorted (dbSeek db t) := by
  intro db
  induction db with
  | nil => intro _; exact List.chain'_nil
  | cons g rest ih =>
      intro hs
      cases hg : lexLt (serDBKey g.1) t with
      | true =>
          have hstep : dbSeek (g :: rest) t = dbSeek rest t := by
            simp [dbSeek, List.dropWhile_cons, hg]
          rw [hstep]
          exact ih (List.chain'_cons'.mp hs).2
      | false =>
          have hstep : dbSeek (g :: rest) t = g :: rest := by
            simp [dbSeek, List.dropWhile_cons, hg]
          rw [hstep]
          exact hs

/-- An entry whose serialized key is not below the seek target survives the
seek: the iterator lands at or before it. -/
lemma mem_dbSeek_of_not_lt (t : List Nat) (e : DBKey × DBValue)
    (hnot : lexLt (serDBKey e.1) t = false) :
    ∀ (db : Db), e ∈ db → e ∈ dbSeek db t := by
  intro db
  induction db with
  | nil => intro h; simp at h
  | cons g rest ih =>
      intro he
      cases hg : lexLt (serDBKey g.1) t with
      | true =>
          have hstep : dbSeek (g :: rest) t = dbSeek rest t := by
            simp [dbSeek, List.dropWhile_cons, hg]
          rw [hstep]
          rcases List.mem_cons.mp he with heq | hmem
          · exfalso
            rw [heq] at hnot
            rw [hnot] at hg
            exact Bool.false_ne_true hg
          · exact ih hmem
      | false =>
          have hstep : dbSeek (g :: rest) t = g :: rest := by
            simp [dbSeek, List.dropWhile_cons, hg]
          rw [hstep]
          exact he

/-- On a sorted store, every entry at or after the seek point has its
serialized key at or above the target. -/
lemma dbSeek_all_not_lt (t : List Nat) :
    ∀ (db : Db), DbSorted db → ∀ f ∈ dbSeek db t,
      lexLt (serDBKey f.1) t = false := by
  intro db
  induction db with
  | nil => intro _ f hf; simp [dbSeek] at hf
  | cons g rest ih =>
      intro hs f hf
      cases hg : lexLt (serDBKey g.1) t with
      | true =>
          have hstep : dbSeek (g :: rest) t = dbSeek rest t := by
            simp [dbSeek, List.dropWhile_cons, hg]
          rw [hstep] at hf
          exact ih (List.chain'_cons'.mp hs).2 f hf
      | false =>
          have hstep : dbSeek (g :: rest) t = g :: rest := by
            simp [dbSeek, List.dropWhile_cons, hg]
          rw [hstep] at hf
          rcases List.mem_cons.mp hf with heq | hmem
          · rw [heq]; exact hg
          · cases hft : lexLt (serDBKey f.1) t with
            | false => rfl
            | true =>
                exfalso
                have hgf := chain_head_lexLt rest g hs f hmem
                have hcontra : lexLt (serDBKey g.1) t = true := lexLt_trans hgf hft
                rw [hg] at hcontra
                exact Bool.false_ne_true hcontra

/-- A key of the queried AddrId sorts strictly below every key of a
different AddrId that lies at or above the queried AddrId's serialized
DBKeyPrefix. -/
lemma lexLt_block_of_other_addr (a : Nat) (ha : a < 2 ^ 32) (e f : DBKey)
    (hea : e.m_addr_id = a) (hfa : f.m_addr_id ≠ a) (hfb : f.m_addr_id < 2 ^ 32)
    (hge : lexLt (serDBKey f) (serDBKeyPrefix a) = false) :
    lexLt (serDBKey e) (serDBKey f) = true := by
  have hpne : serDBKeyPrefix f.m_addr_id ≠ serDBKeyPrefix a := fun h =>
    hfa (serDBKeyPrefix_inj _ _ hfb ha h)
  have hlen : (serDBKeyPrefix f.m_addr_id).length = (serDBKeyPrefix a).length := by
    rw [serDBKeyPrefix_length, serDBKeyPrefix_length]
  have hge2 : lexLt (serDBKeyPrefix f.m_addr_id) (serDBKeyPrefix a) = false := by
    have h0 : serDBKeyPrefix a = serDBKeyPrefix a ++ [] := (List.append_nil _).symm
    rw [serDBKey, h0, lexLt_append_of_ne _ _ _ _ hlen hpne] at hge
    exact hge
  have hlt : lexLt (serDBKeyPrefix a) (serDBKeyPrefix f.m_addr_id) = true :=
    lexLt_total_of_ne _ _ hlen hpne hge2
  rw [serDBKey, serDBKey, hea]
  rw [lexLt_append_of_ne _ _ _ _ hlen.symm (fun h => hpne h.symm)]
  exact hlt

/-- On a sorted iterator tail that starts at or after the queried AddrId's
prefix, every entry carrying the queried AddrId lies in the initial run the
scan's takeWhile captures: no entry of another AddrId can precede it. -/
lemma mem_takeWhile_addrId (a : Nat) (ha : a < 2 ^ 32) :
    ∀ (it : Db), DbSorted it →
      (∀ f ∈ it, f.1.m_addr_id < 2 ^ 32) →
      (∀ f ∈ it, lexLt (serDBKey f.1) (serDBKeyPrefix a) = false) →
      ∀ e ∈ it, e.1.m_addr_id = a →
        e ∈ it.takeWhile (fun f => f.1.m_addr_id == a) := by
  intro it
  induction it with
  | nil => intro _ _ _ e he _; simp at he
  | cons g rest ih =>
      intro hs hb hge e he hea
      by_cases hg : g.1.m_addr_id = a
      · have hstep : List.takeWhile (fun f => f.1.m_addr_id == a) (g :: rest) =
            g :: List.takeWhile (fun f => f.1.m_addr_id == a) rest := by
          simp [List.takeWhile_cons, hg]
        rw [hstep]
        rcases List.mem_cons.mp he with heq | hmem
        · exact heq ▸ List.mem_cons_self _ _
        · exact List.mem_cons_of_mem _ (ih (List.chain'_cons'.mp hs).2
            (fun f hf => hb f (List.mem_cons_of_mem _ hf))
            (fun f hf => hge f (List.mem_cons_of_mem _ hf)) e hmem hea)
      · exfalso
        have hblock : lexLt (serDBKey e.1) (serDBKey g.1) = true :=
          lexLt_block_of_other_addr a ha e.1 g.1 hea hg
            (hb g (List.mem_cons_self _ _)) (hge g (List.mem_cons_self _ _))
        rcases List.mem_cons.mp he with heq | hmem
        · rw [heq] at hea
          exact hg hea
        · have hlt := chain_head_lexLt rest g hs e hmem
          have hcontra := lexLt_trans hlt hblock
          rw [lexLt_irrefl] at hcontra
          exact Bool.false_ne_true hcontra

/-- Completeness of ReadAddrIndex on a sorted store free of hash collisions
for the queried script: with fuel beyond the store size the scan terminates
and returns exactly the entries stored under the queried AddrId. -/
lemma readAddrIndex_complete (db : Db) (hs : DbSorted db) (a : Nat) (s : Script)
    (ha : a < 2 ^ 32)
    (hbound : ∀ e ∈ db, e.1.m_addr_id < 2 ^ 32)
    (hcoll : ∀ e ∈ db, e.1.m_addr_id = a → e.2.2 = s)
    (fuel : Nat) (hfuel : db.length < fuel) :
    ∃ r, ReadAddrIndex fuel db a s = some r ∧
      ∀ e, e ∈ r ↔ (e ∈ db ∧ e.1.m_addr_id = a) := by
  have hsub : ∀ f ∈ dbSeek db (serDBKeyPrefix a), f ∈ db :=
    fun f hf => List.dropWhile_subset _ hf
  have hslen : (dbSeek db (serDBKeyPrefix a)).length < fuel :=
    Nat.lt_of_le_of_lt (List.dropWhile_sublist _).length_le hfuel
  refine ⟨(dbSeek db (serDBKeyPrefix a)).takeWhile (fun e => e.1.m_addr_id == a),
    ?_, ?_⟩
  · rw [ReadAddrIndex,
      readLoop_run a s (dbSeek db (serDBKeyPrefix a)) [] fuel
        (fun e he hea => hcoll e (hsub e he) hea) hslen,
      List.nil_append]
  · intro e
    constructor
    · intro he
      have hit : e ∈ dbSeek db (serDBKeyPrefix a) :=
        List.Sublist.mem he (List.takeWhile_sublist _)
      exact ⟨hsub e hit, by simpa using List.mem_takeWhile_imp he⟩
    · intro hin
      have hnot : lexLt (serDBKey e.1) (serDBKeyPrefix a) = false := by
        rw [show serDBKeyPrefix a = serDBKeyPrefix e.1.m_addr_id from by
          rw [hin.2]]
        exact lexLt_serDBKey_ownPrefix e.1
      have hit : e ∈ dbSeek db (serDBKeyPrefix a) :=
        mem_dbSeek_of_not_lt (serDBKeyPrefix a) e hnot db hin.1
      exact mem_takeWhile_addrId a ha _ (DbSorted_dbSeek _ db hs)
        (fun f hf => hbound f (hsub f hf))
        (dbSeek_all_not_lt _ db hs) e hit hin.2

lemma compactSizeBytes_length (n : Nat) :
    (compactSizeBytes n).length = GetSizeOfCompactSize n := by
  rw [compactSizeBytes, GetSizeOfCompactSize]
  by_cases h1 : n < 253
  · rw [if_pos h1, if_pos h1]
    rfl
  · rw [if_neg h1, if_neg h1]
    by_cases h2 : n ≤ 0xFFFF
    · rw [if_pos h2, if_pos h2]
      simp [leBytes_length]
    · rw [if_neg h2, if_neg h2]
      by_cases h3 : n ≤ 0xFFFFFFFF
      · rw [if_pos h3, if_pos h3]
        simp [leBytes_length]
      · rw [if_neg h3, if_neg h3]
        simp [leBytes_length]

/-- Skipping the serialized sizes of the first i transactions inside the
concatenated transaction area of the block file lands exactly on the ith
serialized transaction. -/
lemma drop_flatten_serTx (serTx : CTransaction → List Nat) :
    ∀ (txs : List CTransaction) (i : Nat) (tx : CTransaction),
      txs.get? i = some tx →
      ∃ rest, List.drop (((txs.take i).map (fun t => (serTx t).length)).sum)
          ((txs.map serTx).flatten) = serTx tx ++ rest := by
  intro txs
  induction txs with
  | nil => intro i tx h; simp at h
  | cons t ts ih =>
      intro i tx hget
      cases i with
      | zero =>
          have ht : t = tx := by simpa using hget
          subst ht
          exact ⟨(ts.map serTx).flatten, by simp⟩
      | succ i =>
          have hget2 : ts.get? i = some tx := by simpa using hget
          obtain ⟨rest, hr⟩ := ih i tx hget2
          refine ⟨rest, ?_⟩
          simp only [List.take_succ_cons, List.map_cons, List.sum_cons,
            List.flatten_cons]
          rw [← List.drop_drop, List.drop_left]
          exact hr

/-- The per-entry disk read of FindTxsByScript succeeds at the position
WriteBlock stored for the ith transaction, and returns exactly that
transaction together with the block's header bytes. -/
lemma readTx_at_index (serTx : CTransaction → List Nat)
    (deserTx : List Nat → Option (CTransaction × List Nat))
    (blockFiles : Nat → Nat → Option (List Nat))
    (block : CBlock) (bf bp : Nat) (hdr : List Nat)
    (hfile : blockFiles bf bp = some (hdr ++ (compactSizeBytes block.vtx.length ++
      (block.vtx.map serTx).flatten)))
    (hhdr : hdr.length = 80)
    (hdeser : ∀ t ∈ block.vtx, ∀ suffix, deserTx (serTx t ++ suffix) =
      some (t, suffix))
    (i : Nat) (tx : CTransaction) (hget : block.vtx.get? i = some tx) :
    readTxFromDisk deserTx blockFiles
      ⟨bf, bp, GetSizeOfCompactSize block.vtx.length +
        ((block.vtx.take i).map (fun t => (serTx t).length)).sum⟩ =
      some (tx, hdr) := by
  have hlen : ¬ (hdr ++ (compactSizeBytes block.vtx.length ++
      (block.vtx.map serTx).flatten)).length < 80 := by
    simp [hhdr]
  obtain ⟨rest, hdropped⟩ := drop_flatten_serTx serTx block.vtx i tx hget
  have hstream : List.drop (GetSizeOfCompactSize block.vtx.length +
      ((block.vtx.take i).map (fun t => (serTx t).length)).sum)
      (List.drop 80 (hdr ++ (compactSizeBytes block.vtx.length ++
        (block.vtx.map serTx).flatten))) = serTx tx ++ rest := by
    rw [List.drop_left' hhdr, ← List.drop_drop,
      List.drop_left' (compactSizeBytes_length block.vtx.length)]
    exact hdropped
  simp only [readTxFromDisk, hfile]
  rw [if_neg hlen, hstream, hdeser tx (List.get?_mem hget) rest,
    List.take_left' hhdr]

/-- When every entry handed to the result loop of FindTxsByScript is of
SPENT or CREATED kind and its disk read succeeds, the loop returns true,
only extends the result vectors, and records each CREATED entry's outpoint
with the transaction and header its disk read produced. -/
lemma findTxsLoop_all_ok (deser : List Nat → Option (CTransaction × List Nat))
    (files : Nat → Nat → Option (List Nat)) :
    ∀ (entries : List (DBKey × DBValue)) (spends creations : List LookupRes),
      (∀ e ∈ entries, e.1.m_key_type ≠ DBKeyType.SEED ∧
        ∃ p, readTxFromDisk deser files e.2.1 = some p) →
      ∃ sp cr, findTxsLoop deser files entries spends creations = (true, sp, cr) ∧
        (∀ x ∈ creations, x ∈ cr) ∧
        (∀ e ∈ entries, e.1.m_key_type = DBKeyType.CREATED →
          ∀ tx hd, readTxFromDisk deser files e.2.1 = some (tx, hd) →
            (e.1.m_outpoint, tx, hd) ∈ cr)
  | [], spends, creations, _ =>
      ⟨spends, creations, rfl, fun x hx => hx, by simp⟩
  | (key, value) :: rest, spends, creations, h => by
      obtain ⟨hne, ⟨tx, hd⟩, hrd⟩ := h (key, value) (List.mem_cons_self _ _)
      have hrest : ∀ e ∈ rest, e.1.m_key_type ≠ DBKeyType.SEED ∧
          ∃ p, readTxFromDisk deser files e.2.1 = some p :=
        fun e he => h e (List.mem_cons_of_mem _ he)
      cases hk : key.m_key_type with
      | SEED => exact absurd hk hne
      | SPENT =>
          obtain ⟨sp, cr, hl, hmono, hmem⟩ := findTxsLoop_all_ok deser files rest
            (spends ++ [(key.m_outpoint, tx, hd)]) creations hrest
          refine ⟨sp, cr, ?_, hmono, ?_⟩
          · simp only [findTxsLoop, hrd, hk]
            exact hl
          · intro e he hkind tx2 hd2 hrd2
            rcases List.mem_cons.mp he with heq | hmem2
            · exfalso
              rw [heq] at hkind
              rw [hk] at hkind
              simp at hkind
            · exact hmem e hmem2 hkind tx2 hd2 hrd2
      | CREATED =>
          obtain ⟨sp, cr, hl, hmono, hmem⟩ := findTxsLoop_all_ok deser files rest
            spends (creations ++ [(key.m_outpoint, tx, hd)]) hrest
          refine ⟨sp, cr, ?_, ?_, ?_⟩
          · simp only [findTxsLoop, hrd, hk]
            exact hl
          · intro x hx
            exact hmono x (List.mem_append_left _ hx)
          · intro e he hkind tx2 hd2 hrd2
            rcases List.mem_cons.mp he with heq | hmem2
            · subst heq
              have hrd2t : readTxFromDisk deser files value.1 = some (tx2, hd2) :=
                hrd2
              rw [hrd] at hrd2t
              have hpair : tx = tx2 ∧ hd = hd2 := by simpa using hrd2t
              obtain ⟨h1, h2⟩ := hpair
              subst h1
              subst h2
              exact hmono _ (List.mem_append_right _ (by simp))
            · exact hmem e hmem2 hkind tx2 hd2 hrd2

/-- C7.  The claim states the connect/lookup round trip unconditionally:
for every connected block, every output (T, j) is found again by
FindTxsByScript on its script, the stored DiskTxPos (block position plus
compact-size length, advanced by serialized transaction sizes) locating
exactly the serialized T.  As stated this is false — when another entry of
the same AddrId stores a different script (a fingerprint collision), the
scan loop never terminates (see the collision counterexample).  Corrected
round trip: if no entry the block contributes collides on the queried
script's AddrId with a different script, then after connecting the block to
an empty store (with the undo record mirroring the block, distinct txids,
field bounds, the block file laid out as header bytes, compact-size
transaction count and the concatenated serialized transactions, a
deserializer that inverts serTx, and scan fuel beyond the store size)
FindTxsByScript on T.vout[j].scriptPubKey returns true with a creations
element carrying the outpoint (T.txid, j), the transaction T itself read
back from the stored position, and the block's header bytes. -/
theorem c7_roundtrip_locates_creation (serTx : CTransaction → List Nat)
    (deserTx : List Nat → Option (CTransaction × List Nat))
    (blockFiles : Nat → Nat → Option (List Nat)) (seed : Nat)
    (block : CBlock) (undo : CBlockUndo) (bf bp nHeight : Nat)
    (hdr : List Nat) (fuel : Nat) (i : Nat) (T : CTransaction) (j : Nat)
    (out : CTxOut)
    (hget : block.vtx.get? i = some T)
    (hout : T.vout.get? j = some out)
    (hmirror : undo.vtxundo.length = block.vtx.length - 1)
    (hshape : ∀ i tx tu, block.vtx.get? i = some tx →
      undo.vtxundo.get? (i - 1) = some tu → 0 < i →
      tu.vprevout.length = tx.vin.length)
    (hnd : (block.vtx.map (fun t => t.txid)).Nodup)
    (hhash : ∀ tx ∈ block.vtx, tx.txid < 2 ^ 256)
    (hvout : ∀ tx ∈ block.vtx, tx.vout.length ≤ 2 ^ 32)
    (hprev : ∀ tx ∈ block.vtx, ∀ txin ∈ tx.vin,
      txin.prevout.hash < 2 ^ 256 ∧ txin.prevout.n < 2 ^ 32)
    (hcoll : ∀ e ∈ blockEntriesList serTx seed block undo bf bp nHeight,
      e.1.m_addr_id = GetAddrId seed out.scriptPubKey → e.2.2 = out.scriptPubKey)
    (hfile : blockFiles bf bp = some (hdr ++ (compactSizeBytes block.vtx.length ++
      (block.vtx.map serTx).flatten)))
    (hhdr : hdr.length = 80)
    (hdeser : ∀ t ∈ block.vtx, ∀ suffix, deserTx (serTx t ++ suffix) =
      some (t, suffix))
    (hfuel : (blockEntriesList serTx seed block undo bf bp nHeight).length < fuel) :
    WriteBlock serTx seed [] block (some undo) bf bp nHeight =
      some (true, WriteToIndex []
        (blockEntriesList serTx seed block undo bf bp nHeight)) ∧
    ∃ sp cr,
      FindTxsByScript deserTx blockFiles fuel seed
          (WriteToIndex [] (blockEntriesList serTx seed block undo bf bp nHeight))
          out.scriptPubKey =
        some (true, sp, cr) ∧
      ((⟨T.txid, j⟩ : COutPoint), T, hdr) ∈ cr := by
  have hles : blockEntriesList serTx seed block undo bf bp nHeight =
      blockEntriesListGo serTx seed (decide (0 < nHeight)) undo bf bp
        (List.enumFrom 0 block.vtx) (GetSizeOfCompactSize block.vtx.length) :=
    blockEntriesList_eq_go serTx seed block undo bf bp nHeight
  have hdbsorted : DbSorted (WriteToIndex []
      (blockEntriesList serTx seed block undo bf bp nHeight)) :=
    WriteToIndex_sorted _ [] List.chain'_nil
  have hdbsub : ∀ f ∈ WriteToIndex []
      (blockEntriesList serTx seed block undo bf bp nHeight),
      f ∈ blockEntriesList serTx seed block undo bf bp nHeight := by
    intro f hf
    rcases mem_WriteToIndex _ [] f hf with h | h
    · simp at h
    · exact h
  have hdbbound : ∀ f ∈ WriteToIndex []
      (blockEntriesList serTx seed block undo bf bp nHeight),
      f.1.m_addr_id < 2 ^ 32 := by
    intro f hf
    have hfe := hdbsub f hf
    rw [hles] at hfe
    exact (blockEntriesListGo_key_bounds serTx seed _ undo bf bp block.vtx 0 _
      hhash hvout hprev f hfe).1
  have hdbcoll : ∀ f ∈ WriteToIndex []
      (blockEntriesList serTx seed block undo bf bp nHeight),
      f.1.m_addr_id = GetAddrId seed out.scriptPubKey →
        f.2.2 = out.scriptPubKey :=
    fun f hf => hcoll f (hdbsub f hf)
  have hdblen : (WriteToIndex []
      (blockEntriesList serTx seed block undo bf bp nHeight)).length < fuel := by
    have h0 := WriteToIndex_length
      (blockEntriesList serTx seed block undo bf bp nHeight) []
    simp only [List.length_nil, Nat.zero_add] at h0
    omega
  have htmem : ((⟨GetAddrId seed out.scriptPubKey, DBKeyType.CREATED,
      ⟨T.txid, j⟩⟩ : DBKey),
      ((⟨bf, bp, GetSizeOfCompactSize block.vtx.length +
        ((block.vtx.take i).map (fun t => (serTx t).length)).sum⟩ : CDiskTxPos),
       out.scriptPubKey)) ∈
      blockEntriesList serTx seed block undo bf bp nHeight := by
    rw [hles]
    exact created_mem_blockEntriesListGo serTx seed _ undo bf bp block.vtx 0
      (GetSizeOfCompactSize block.vtx.length) i T j out hget hout
  have hKb : GetAddrId seed out.scriptPubKey < 2 ^ 32 ∧ T.txid < 2 ^ 256 ∧
      j < 2 ^ 32 := by
    refine ⟨GetAddrId_lt _ _, hhash T (List.get?_mem hget), ?_⟩
    obtain ⟨hj, _⟩ := List.get?_eq_some.mp hout
    exact Nat.lt_of_lt_of_le hj (hvout T (List.get?_mem hget))
  have huniq : ∀ b ∈ blockEntriesList serTx seed block undo bf bp nHeight,
      serDBKey b.1 = serDBKey ⟨GetAddrId seed out.scriptPubKey,
        DBKeyType.CREATED, ⟨T.txid, j⟩⟩ →
      b = (⟨GetAddrId seed out.scriptPubKey, DBKeyType.CREATED, ⟨T.txid, j⟩⟩,
        (⟨bf, bp, GetSizeOfCompactSize block.vtx.length +
          ((block.vtx.take i).map (fun t => (serTx t).length)).sum⟩,
         out.scriptPubKey)) := by
    intro b hb hkey
    rw [hles] at hb
    have hbb := blockEntriesListGo_key_bounds serTx seed _ undo bf bp
      block.vtx 0 _ hhash hvout hprev b hb
    have hbK : b.1 = ⟨GetAddrId seed out.scriptPubKey, DBKeyType.CREATED,
        ⟨T.txid, j⟩⟩ :=
      serDBKey_inj b.1 _ hbb.1 hKb.1 hbb.2.1 hKb.2.1 hbb.2.2 hKb.2.2 hkey
    obtain ⟨i2, tx2, hget2, hpos2, hcase⟩ :=
      mem_blockEntriesListGo_cases serTx seed _ undo bf bp block.vtx 0 _ b hb
    rcases hcase with ⟨j2, out2, hout2, he⟩ |
      ⟨_, _, tu2, _, k2, in2, coin2, _, _, he⟩
    · have hk1 : b.1 = ⟨GetAddrId seed out2.scriptPubKey, DBKeyType.CREATED,
          ⟨tx2.txid, j2⟩⟩ := by rw [he]
      rw [hbK] at hk1
      have htxid : T.txid = tx2.txid := by
        have := congrArg (fun q => q.m_outpoint.hash) hk1
        simpa using this
      have hj2 : j = j2 := by
        have := congrArg (fun q => q.m_outpoint.n) hk1
        simpa using this
      have hi : i = i2 := index_eq_of_txid block.vtx hnd i i2 T tx2 hget
        hget2 htxid
      subst hi
      subst hj2
      have htx2 : tx2 = T := by
        rw [hget] at hget2
        exact (Option.some_inj.mp hget2).symm
      subst htx2
      have hout2e : out2 = out := by
        rw [hout] at hout2
        exact (Option.some_inj.mp hout2).symm
      subst hout2e
      rw [he, hpos2]
    · exfalso
      have hk1 : b.1.m_key_type = DBKeyType.SPENT := by rw [he]
      rw [hbK] at hk1
      simp at hk1
  have hfind : (blockEntriesList serTx seed block undo bf bp nHeight).reverse.find?
      (fun f => serDBKey f.1 = serDBKey ⟨GetAddrId seed out.scriptPubKey,
        DBKeyType.CREATED, ⟨T.txid, j⟩⟩) =
      some (⟨GetAddrId seed out.scriptPubKey, DBKeyType.CREATED, ⟨T.txid, j⟩⟩,
        (⟨bf, bp, GetSizeOfCompactSize block.vtx.length +
          ((block.vtx.take i).map (fun t => (serTx t).length)).sum⟩,
         out.scriptPubKey)) := by
    apply find?_eq_of_unique _ _ _ (List.mem_reverse.mpr htmem) (by simp)
    intro b hb hpb
    exact huniq b (List.mem_reverse.mp hb) (by simpa using hpb)
  have hget_db : dbGet (WriteToIndex []
      (blockEntriesList serTx seed block undo bf bp nHeight))
      ⟨GetAddrId seed out.scriptPubKey, DBKeyType.CREATED, ⟨T.txid, j⟩⟩ =
      some (⟨bf, bp, GetSizeOfCompactSize block.vtx.length +
          ((block.vtx.take i).map (fun t => (serTx t).length)).sum⟩,
        out.scriptPubKey) := by
    rw [dbGet_WriteToIndex, hfind]
  have htdb : ((⟨GetAddrId seed out.scriptPubKey, DBKeyType.CREATED,
      ⟨T.txid, j⟩⟩ : DBKey),
      ((⟨bf, bp, GetSizeOfCompactSize block.vtx.length +
        ((block.vtx.take i).map (fun t => (serTx t).length)).sum⟩ : CDiskTxPos),
       out.scriptPubKey)) ∈
      WriteToIndex [] (blockEntriesList serTx seed block undo bf bp nHeight) := by
    rw [dbGet] at hget_db
    cases hf : List.find? (fun e => serDBKey e.1 =
        serDBKey ⟨GetAddrId seed out.scriptPubKey, DBKeyType.CREATED,
          ⟨T.txid, j⟩⟩)
        (WriteToIndex []
          (blockEntriesList serTx seed block undo bf bp nHeight)) with
    | none =>
        rw [hf] at hget_db
        simp at hget_db
    | some fp =>
        rw [hf] at hget_db
        have hfpm := List.mem_of_find?_eq_some hf
        have hfpk : serDBKey fp.1 = serDBKey ⟨GetAddrId seed out.scriptPubKey,
            DBKeyType.CREATED, ⟨T.txid, j⟩⟩ := by
          simpa using List.find?_some hf
        have hfpe := huniq fp (hdbsub fp hfpm) hfpk
        rw [hfpe] at hfpm
        exact hfpm
  obtain ⟨r, hr, hchar⟩ := readAddrIndex_complete
    (WriteToIndex [] (blockEntriesList serTx seed block undo bf bp nHeight))
    hdbsorted (GetAddrId seed out.scriptPubKey) out.scriptPubKey
    (GetAddrId_lt _ _) hdbbound hdbcoll fuel hdblen
  have htr : ((⟨GetAddrId seed out.scriptPubKey, DBKeyType.CREATED,
      ⟨T.txid, j⟩⟩ : DBKey),
      ((⟨bf, bp, GetSizeOfCompactSize block.vtx.length +
        ((block.vtx.take i).map (fun t => (serTx t).length)).sum⟩ : CDiskTxPos),
       out.scriptPubKey)) ∈ r :=
    (hchar _).mpr ⟨htdb, rfl⟩
  have hrne : ¬ r.length = 0 := by
    intro h
    rw [List.length_eq_zero] at h
    rw [h] at htr
    simp at htr
  have hprem : ∀ e ∈ r, e.1.m_key_type ≠ DBKeyType.SEED ∧
      ∃ p, readTxFromDisk deserTx blockFiles e.2.1 = some p := by
    intro e her
    have hedb := ((hchar e).mp her).1
    have hees := hdbsub e hedb
    rw [hles] at hees
    obtain ⟨i2, tx2, hget2, hpos2, hcase2⟩ :=
      mem_blockEntriesListGo_cases serTx seed _ undo bf bp block.vtx 0 _ e hees
    refine ⟨?_, ⟨(tx2, hdr), ?_⟩⟩
    · rcases hcase2 with ⟨j2, out2, _, hee⟩ |
        ⟨_, _, tu2, _, k2, in2, coin2, _, _, hee⟩
      · rw [hee]; simp
      · rw [hee]; simp
    · rw [hpos2]
      exact readTx_at_index serTx deserTx blockFiles block bf bp hdr hfile hhdr
        hdeser i2 tx2 hget2
  obtain ⟨sp, cr, hloop, hmono, hcr⟩ :=
    findTxsLoop_all_ok deserTx blockFiles r [] [] hprem
  refine ⟨?_, sp, cr, ?_, ?_⟩
  · rw [WriteBlock]
    have hnone : ¬(0 < nHeight ∧ (some undo : Option CBlockUndo) = none) := by
      simp
    rw [if_neg hnone]
    rw [show (some undo).getD (⟨[]⟩ : CBlockUndo) = undo from rfl]
    rw [blockEntries_eq_some_of_mirror serTx seed block undo bf bp nHeight
      hmirror hshape]
  · simp only [FindTxsByScript, hr]
    rw [if_neg hrne, hloop]
  · exact hcr _ htr rfl T hdr (readTx_at_index serTx deserTx blockFiles block
      bf bp hdr hfile hhdr hdeser i T hget)

/-- Witness for C7 at a concrete one-transaction block connected to an
empty store: the lookup of the output script [1] returns true and its
creations vector holds the coinbase transaction read back from the block
file together with the 80 header bytes. -/
theorem c7_roundtrip_locates_creation_witness :
    WriteBlock serTxOne 0 [] ⟨[cbTx]⟩ (some ⟨[]⟩) 0 0 1 =
      some (true, WriteToIndex []
        (blockEntriesList serTxOne 0 ⟨[cbTx]⟩ ⟨[]⟩ 0 0 1)) ∧
    ∃ sp cr,
      FindTxsByScript
          (fun bs => match bs with
            | 0 :: rest => some (cbTx, rest)
            | _ => none)
          (fun f p => if f = 0 ∧ p = 0 then
            some (List.replicate 80 7 ++ (compactSizeBytes 1 ++ [0])) else none)
          2 0 (WriteToIndex [] (blockEntriesList serTxOne 0 ⟨[cbTx]⟩ ⟨[]⟩ 0 0 1))
          [1] =
        some (true, sp, cr) ∧
      ((⟨cbTx.txid, 0⟩ : COutPoint), cbTx, List.replicate 80 7) ∈ cr :=
  c7_roundtrip_locates_creation serTxOne
    (fun bs => match bs with
      | 0 :: rest => some (cbTx, rest)
      | _ => none)
    (fun f p => if f = 0 ∧ p = 0 then
      some (List.replicate 80 7 ++ (compactSizeBytes 1 ++ [0])) else none)
    0 ⟨[cbTx]⟩ ⟨[]⟩ 0 0 1 (List.replicate 80 7) 2 0 cbTx 0 ⟨[1]⟩
    rfl rfl rfl
    (by intro i tx tu _ htu _; simp at htu)
    (by decide) (by decide) (by decide) (by decide)
    (by decide)
    (by decide)
    (by decide)
    (by
      intro t ht suffix
      have htc : t = cbTx := by simpa using ht
      subst htc
      rfl)
    (by decide)

/-- Counterexample to C7 as claimed.  The scripts [1, 2, 3] and
[4, 251, 226, 44] collide under the fingerprint with seed 0.  Connecting a
genesis block whose single transaction creates one output with each script
succeeds (first conjunct, the connect WriteBlock performs), but the
subsequent FindTxsByScript on [1, 2, 3] — the round trip the claim
promises for every connected output — never returns: after consuming the
matching entry the scan stands on the colliding entry and repeats its
`continue` without advancing, for every fuel bound. -/
theorem c7_counterexample_collision_lookup_diverges :
    WriteBlock serTxOne 0 [] ⟨[⟨1, [], [⟨[1, 2, 3]⟩, ⟨[4, 251, 226, 44]⟩]⟩]⟩
        none 0 0 0 =
      some (true, WriteToIndex [] (blockEntriesList serTxOne 0
        ⟨[⟨1, [], [⟨[1, 2, 3]⟩, ⟨[4, 251, 226, 44]⟩]⟩]⟩ ⟨[]⟩ 0 0 0)) ∧
    (fun fuel => FindTxsByScript (fun _ => none) (fun _ _ => none) fuel 0
        (WriteToIndex [] (blockEntriesList serTxOne 0
          ⟨[⟨1, [], [⟨[1, 2, 3]⟩, ⟨[4, 251, 226, 44]⟩]⟩]⟩ ⟨[]⟩ 0 0 0)) [1, 2, 3]) =
      (fun _ => (none : Option (Bool × List LookupRes × List LookupRes))) := by
  constructor
  · decide
  · funext fuel
    have hdb : WriteToIndex [] (blockEntriesList serTxOne 0
        ⟨[⟨1, [], [⟨[1, 2, 3]⟩, ⟨[4, 251, 226, 44]⟩]⟩]⟩ ⟨[]⟩ 0 0 0) =
        [(⟨GetAddrId 0 [1, 2, 3], DBKeyType.CREATED, ⟨1, 0⟩⟩,
            (⟨0, 0, 1⟩, ([1, 2, 3] : Script))),
         (⟨GetAddrId 0 [4, 251, 226, 44], DBKeyType.CREATED, ⟨1, 1⟩⟩,
            (⟨0, 0, 1⟩, ([4, 251, 226, 44] : Script)))] := by decide
    have hread : ReadAddrIndex fuel (WriteToIndex [] (blockEntriesList serTxOne 0
        ⟨[⟨1, [], [⟨[1, 2, 3]⟩, ⟨[4, 251, 226, 44]⟩]⟩]⟩ ⟨[]⟩ 0 0 0))
        (GetAddrId 0 [1, 2, 3]) [1, 2, 3] = none := by
      rw [ReadAddrIndex, hdb]
      have hseek : dbSeek
          [(⟨GetAddrId 0 [1, 2, 3], DBKeyType.CREATED, ⟨1, 0⟩⟩,
              (⟨0, 0, 1⟩, ([1, 2, 3] : Script))),
           (⟨GetAddrId 0 [4, 251, 226, 44], DBKeyType.CREATED, ⟨1, 1⟩⟩,
              (⟨0, 0, 1⟩, ([4, 251, 226, 44] : Script)))]
          (serDBKeyPrefix (GetAddrId 0 [1, 2, 3])) =
          [(⟨GetAddrId 0 [1, 2, 3], DBKeyType.CREATED, ⟨1, 0⟩⟩,
              (⟨0, 0, 1⟩, ([1, 2, 3] : Script))),
           (⟨GetAddrId 0 [4, 251, 226, 44], DBKeyType.CREATED, ⟨1, 1⟩⟩,
              (⟨0, 0, 1⟩, ([4, 251, 226, 44] : Script)))] := by decide
      rw [hseek]
      cases fuel with
      | zero => rfl
      | succ n =>
          rw [readLoop_step_match (GetAddrId 0 [1, 2, 3]) [1, 2, 3]
            ⟨GetAddrId 0 [1, 2, 3], DBKeyType.CREATED, ⟨1, 0⟩⟩
            (⟨0, 0, 1⟩, [1, 2, 3]) _ [] n rfl rfl]
          exact readLoop_stuck (GetAddrId 0 [1, 2, 3]) [1, 2, 3]
            ⟨GetAddrId 0 [4, 251, 226, 44], DBKeyType.CREATED, ⟨1, 1⟩⟩
            (⟨0, 0, 1⟩, [4, 251, 226, 44]) []
            ([] ++ [(⟨GetAddrId 0 [1, 2, 3], DBKeyType.CREATED, ⟨1, 0⟩⟩,
              (⟨0, 0, 1⟩, ([1, 2, 3] : Script)))])
            (by decide) (by decide) n
    simp only [FindTxsByScript, hread]
